import Mathlib

/-!
Shallow embedding of the ai-agent-planner orchestration core
(src/lib/ai-client.ts, src/lib/orchestrator.ts, src/lib/quality-checklist.ts)
and proofs about its specified behaviour.
-/

set_option maxRecDepth 10000

namespace Planner

/-- JSON values as produced by `JSON.parse`.  Numbers are kept exactly as a
decimal mantissa together with a power-of-ten exponent (`mantissa * 10^exp10`),
which represents every literal the grammar admits without rounding. -/
inductive Json where
  | null : Json
  | bool (b : Bool) : Json
  | num (mantissa : Int) (exp10 : Int) : Json
  | str (s : String) : Json
  | arr (elems : List Json) : Json
  | obj (fields : List (String × Json)) : Json
deriving Repr

mutual

def Json.beq : Json → Json → Bool
  | .null, .null => true
  | .bool a, .bool b => a == b
  | .num m e, .num m' e' => m == m' && e == e'
  | .str a, .str b => a == b
  | .arr xs, .arr ys => Json.beqList xs ys
  | .obj xs, .obj ys => Json.beqFields xs ys
  | _, _ => false

def Json.beqList : List Json → List Json → Bool
  | [], [] => true
  | x :: xs, y :: ys => Json.beq x y && Json.beqList xs ys
  | _, _ => false

def Json.beqFields : List (String × Json) → List (String × Json) → Bool
  | [], [] => true
  | (k, v) :: xs, (k', v') :: ys => k == k' && Json.beq v v' && Json.beqFields xs ys
  | _, _ => false

end

instance : BEq Json := ⟨Json.beq⟩

mutual

theorem Json.beq_iff_eq : ∀ a b : Json, Json.beq a b = true ↔ a = b
  | .null, .null => by simp [Json.beq]
  | .null, .bool _ | .null, .num _ _ | .null, .str _ | .null, .arr _ | .null, .obj _ =>
      by simp [Json.beq]
  | .bool _, .null | .bool _, .num _ _ | .bool _, .str _ | .bool _, .arr _ | .bool _, .obj _ =>
      by simp [Json.beq]
  | .bool a, .bool b => by simp [Json.beq]
  | .num _ _, .null | .num _ _, .bool _ | .num _ _, .str _ | .num _ _, .arr _
  | .num _ _, .obj _ => by simp [Json.beq]
  | .num m e, .num m' e' => by simp [Json.beq]
  | .str _, .null | .str _, .bool _ | .str _, .num _ _ | .str _, .arr _ | .str _, .obj _ =>
      by simp [Json.beq]
  | .str a, .str b => by simp [Json.beq]
  | .arr _, .null | .arr _, .bool _ | .arr _, .num _ _ | .arr _, .str _ | .arr _, .obj _ =>
      by simp [Json.beq]
  | .arr xs, .arr ys => by
      simp only [Json.beq, Json.arr.injEq]
      exact Json.beqList_iff_eq xs ys
  | .obj _, .null | .obj _, .bool _ | .obj _, .num _ _ | .obj _, .str _ | .obj _, .arr _ =>
      by simp [Json.beq]
  | .obj xs, .obj ys => by
      simp only [Json.beq, Json.obj.injEq]
      exact Json.beqFields_iff_eq xs ys

theorem Json.beqList_iff_eq : ∀ xs ys : List Json, Json.beqList xs ys = true ↔ xs = ys
  | [], [] => by simp [Json.beqList]
  | [], _ :: _ => by simp [Json.beqList]
  | _ :: _, [] => by simp [Json.beqList]
  | x :: xs, y :: ys => by
      simp only [Json.beqList, Bool.and_eq_true, List.cons.injEq]
      exact and_congr (Json.beq_iff_eq x y) (Json.beqList_iff_eq xs ys)

theorem Json.beqFields_iff_eq :
    ∀ xs ys : List (String × Json), Json.beqFields xs ys = true ↔ xs = ys
  | [], [] => by simp [Json.beqFields]
  | [], _ :: _ => by simp [Json.beqFields]
  | _ :: _, [] => by simp [Json.beqFields]
  | (k, v) :: xs, (k', v') :: ys => by
      simp only [Json.beqFields, Bool.and_eq_true, List.cons.injEq, Prod.mk.injEq]
      constructor
      · rintro ⟨⟨hk, hv⟩, ht⟩
        exact ⟨⟨eq_of_beq hk, (Json.beq_iff_eq v v').1 hv⟩,
          (Json.beqFields_iff_eq xs ys).1 ht⟩
      · rintro ⟨⟨hk, hv⟩, ht⟩
        exact ⟨⟨(by rw [hk]; exact beq_self_eq_true k' : (k == k') = true), (Json.beq_iff_eq v v').2 hv⟩,
          (Json.beqFields_iff_eq xs ys).2 ht⟩

end

instance : DecidableEq Json := fun a b =>
  decidable_of_iff (Json.beq a b = true) (Json.beq_iff_eq a b)

/-! ### JSON.parse (the JavaScript builtin JSON grammar, ECMA-404) -/

/-- Whitespace accepted between JSON tokens (space, tab, LF, CR). -/
def isJsonWs (c : Char) : Bool :=
  [32, 9, 10, 13].contains c.toNat

def skipWs : List Char → List Char
  | [] => []
  | c :: cs => if isJsonWs c then skipWs cs else c :: cs

/-- Value of one hexadecimal digit (code points 0-9, a-f, A-F). -/
def hexVal (c : Char) : Option Nat :=
  let n := c.toNat
  if 48 ≤ n && n ≤ 57 then some (n - 48)
  else if 97 ≤ n && n ≤ 102 then some (n - 87)
  else if 65 ≤ n && n ≤ 70 then some (n - 55)
  else none

/-- Value of one decimal digit (code points 48-57). -/
def digitVal (c : Char) : Option Nat :=
  let n := c.toNat
  if 48 ≤ n && n ≤ 57 then some (n - 48) else none

/-- Body of a JSON string literal, with the opening quote already consumed.
Returns the decoded characters and the remaining input. -/
def parseStringChars : List Char → Option (List Char × List Char)
  | [] => none
  | '"' :: cs => some ([], cs)
  | '\\' :: e :: cs =>
      match e with
      | '"' => (parseStringChars cs).map (fun p => ('"' :: p.1, p.2))
      | '\\' => (parseStringChars cs).map (fun p => ('\\' :: p.1, p.2))
      | '/' => (parseStringChars cs).map (fun p => ('/' :: p.1, p.2))
      | 'b' => (parseStringChars cs).map (fun p => (Char.ofNat 8 :: p.1, p.2))
      | 'f' => (parseStringChars cs).map (fun p => (Char.ofNat 12 :: p.1, p.2))
      | 'n' => (parseStringChars cs).map (fun p => ('\n' :: p.1, p.2))
      | 'r' => (parseStringChars cs).map (fun p => ('\r' :: p.1, p.2))
      | 't' => (parseStringChars cs).map (fun p => ('\t' :: p.1, p.2))
      | 'u' =>
          match cs with
          | h1 :: h2 :: h3 :: h4 :: rest =>
              match hexVal h1, hexVal h2, hexVal h3, hexVal h4 with
              | some a, some b, some c, some d =>
                  (parseStringChars rest).map
                    (fun p => (Char.ofNat (((a * 16 + b) * 16 + c) * 16 + d) :: p.1, p.2))
              | _, _, _, _ => none
          | _ => none
      | _ => none
  | c :: cs =>
      if c.toNat < 0x20 then none
      else (parseStringChars cs).map (fun p => (c :: p.1, p.2))

/-- Longest prefix of decimal digits, as digit values. -/
def takeDigits : List Char → List Nat × List Char
  | [] => ([], [])
  | c :: cs =>
      match digitVal c with
      | some d => let (ds, rest) := takeDigits cs; (d :: ds, rest)
      | none => ([], c :: cs)

def digitsToNat (ds : List Nat) : Nat := ds.foldl (fun acc d => acc * 10 + d) 0

/-- An optional leading minus sign. -/
def splitMinus : List Char → Bool × List Char
  | '-' :: r => (true, r)
  | cs => (false, cs)

/-- JSON number grammar: `-? (0 | [1-9][0-9]*) (. [0-9]+)? ([eE][+-]?[0-9]+)?`.
Returns mantissa and power-of-ten exponent. -/
def parseNumberAux (cs : List Char) : Option ((Int × Int) × List Char) :=
  let (neg, cs1) := splitMinus cs
  let intPart : Option (Nat × List Char) :=
    match cs1 with
    | '0' :: r => some (0, r)
    | c :: _ =>
        match digitVal c with
        | some d => if d ≥ 1 then
            let (ds, rest) := takeDigits cs1
            some (digitsToNat ds, rest)
          else none
        | none => none
    | [] => none
  match intPart with
  | none => none
  | some (ip, cs2) =>
    let fracPart : Option (Nat × Nat × List Char) :=
      match cs2 with
      | '.' :: r =>
          let (ds, rest) := takeDigits r
          if ds.isEmpty then none else some (digitsToNat ds, ds.length, rest)
      | _ => some (0, 0, cs2)
    match fracPart with
    | none => none
    | some (fp, fdigits, cs3) =>
      let expPart : Option (Int × List Char) :=
        match cs3 with
        | c :: r =>
            if c == 'e' || c == 'E' then
              let (esign, r1) : Bool × List Char := match r with
                | '+' :: r' => (false, r')
                | '-' :: r' => (true, r')
                | _ => (false, r)
              let (ds, rest) := takeDigits r1
              if ds.isEmpty then none
              else some (if esign then -(digitsToNat ds : Int) else (digitsToNat ds : Int), rest)
            else some (0, cs3)
        | [] => some (0, [])
      match expPart with
      | none => none
      | some (ev, cs4) =>
        let mantNat : Nat := ip * 10 ^ fdigits + fp
        let mant : Int := if neg then -(mantNat : Int) else (mantNat : Int)
        some ((mant, ev - (fdigits : Int)), cs4)

def matchLit : List Char → List Char → Option (List Char)
  | [], cs => some cs
  | l :: ls, c :: cs => if l = c then matchLit ls cs else none
  | _ :: _, [] => none

mutual

/-- JSON value parser; `fuel` bounds nesting and is always sufficient when it
exceeds the input length. -/
def parseValue : Nat → List Char → Option (Json × List Char)
  | 0, _ => none
  | fuel + 1, cs =>
    match skipWs cs with
    | [] => none
    | '{' :: rest =>
        (match skipWs rest with
         | '}' :: r => some (Json.obj [], r)
         | other => (parseMembers fuel other).map (fun p => (Json.obj p.1, p.2)))
    | '[' :: rest =>
        (match skipWs rest with
         | ']' :: r => some (Json.arr [], r)
         | other => (parseElements fuel other).map (fun p => (Json.arr p.1, p.2)))
    | '"' :: rest =>
        (parseStringChars rest).map (fun p => (Json.str (String.mk p.1), p.2))
    | 't' :: rest => (matchLit ['r', 'u', 'e'] rest).map (fun r => (Json.bool true, r))
    | 'f' :: rest => (matchLit ['a', 'l', 's', 'e'] rest).map (fun r => (Json.bool false, r))
    | 'n' :: rest => (matchLit ['u', 'l', 'l'] rest).map (fun r => (Json.null, r))
    | other => (parseNumberAux other).map (fun p => (Json.num p.1.1 p.1.2, p.2))

/-- One or more `"key": value` members, consuming the closing `}`. -/
def parseMembers : Nat → List Char → Option (List (String × Json) × List Char)
  | 0, _ => none
  | fuel + 1, cs =>
    match skipWs cs with
    | '"' :: cs1 =>
        match parseStringChars cs1 with
        | none => none
        | some (key, cs2) =>
          match skipWs cs2 with
          | ':' :: cs3 =>
              match parseValue fuel cs3 with
              | none => none
              | some (v, cs4) =>
                match skipWs cs4 with
                | ',' :: cs5 =>
                    (parseMembers fuel cs5).map
                      (fun p => ((String.mk key, v) :: p.1, p.2))
                | '}' :: cs5 => some ([(String.mk key, v)], cs5)
                | _ => none
          | _ => none
    | _ => none

/-- One or more array elements, consuming the closing `]`. -/
def parseElements : Nat → List Char → Option (List Json × List Char)
  | 0, _ => none
  | fuel + 1, cs =>
    match parseValue fuel cs with
    | none => none
    | some (v, cs1) =>
      match skipWs cs1 with
      | ',' :: cs2 => (parseElements fuel cs2).map (fun p => (v :: p.1, p.2))
      | ']' :: cs2 => some ([v], cs2)
      | _ => none

end

/-- `JSON.parse`: the whole input must be one JSON value surrounded only by
whitespace; `none` models a thrown `SyntaxError`. -/
def jsonParse (s : String) : Option Json :=
  match parseValue (s.length + 2) s.data with
  | some (v, rest) => if skipWs rest = [] then some v else none
  | none => none

/-! ### src/lib/ai-client.ts -/

/-- Whitespace removed by JavaScript `String.prototype.trim` (ASCII blanks,
NBSP, BOM, and the line/paragraph separators), by code point. -/
def isJsTrimWs (c : Char) : Bool :=
  [32, 9, 10, 13, 11, 12, 0xa0, 0xfeff, 0x2028, 0x2029].contains c.toNat

def jsTrim (s : String) : String :=
  String.mk (((s.data.dropWhile isJsTrimWs).reverse.dropWhile isJsTrimWs).reverse)

/-- `normalizeQuotes`: replace curly/smart quotes with straight quotes
(`/“|”|„|‟/g → "` and `/‘|’|‚|‛/g → '`). -/
def normalizeQuotes (s : String) : String :=
  String.mk (s.data.map (fun c =>
    if [0x201C, 0x201D, 0x201E, 0x201F].contains c.toNat then '"'
    else if [0x2018, 0x2019, 0x201A, 0x201B].contains c.toNat then '\''
    else c))

/-- `String.prototype.indexOf` for a single character (`-1` becomes `none`). -/
def indexOfChar (s : List Char) (c : Char) : Option Nat :=
  s.findIdx? (fun x => x == c)

/-- `findFirstOf`: the least index of any of `chars` in `s`. -/
def findFirstOf (s : List Char) (chars : List Char) : Option Nat :=
  chars.foldl
    (fun min c =>
      match indexOfChar s c with
      | none => min
      | some idx =>
          match min with
          | none => some idx
          | some m => if idx < m then some idx else some m)
    none

/-- The scanning loop of `extractFirstJsonBlock`, started at the first opening
bracket with `depth = 0`.  `acc` holds the characters scanned so far in
reverse; the slice is returned once `depth` falls back to `0` after an
iteration that was not skipped by an in-string `continue`. -/
def extractScan (openChar closeChar : Char) :
    List Char → Int → Bool → Bool → List Char → Option (List Char)
  | [], _, _, _, _ => none
  | ch :: rest, depth, inString, escape, acc =>
      if inString then
        if escape then extractScan openChar closeChar rest depth true false (ch :: acc)
        else if ch = '\\' then extractScan openChar closeChar rest depth true true (ch :: acc)
        else if ch = '"' then extractScan openChar closeChar rest depth false false (ch :: acc)
        else extractScan openChar closeChar rest depth true false (ch :: acc)
      else if ch = '"' then extractScan openChar closeChar rest depth true false (ch :: acc)
      else
        let depth := if ch = openChar then depth + 1 else depth
        let depth := if ch = closeChar then depth - 1 else depth
        if depth = 0 then some ((ch :: acc).reverse)
        else extractScan openChar closeChar rest depth false false (ch :: acc)

/-- `extractFirstJsonBlock`: first balanced `{…}` / `[…]` span, respecting
double-quoted strings and backslash escapes; the span is `trim`med. -/
def extractFirstJsonBlock (s : String) : Option String :=
  match findFirstOf s.data ['{', '['] with
  | none => none
  | some startIdx =>
      let tail := s.data.drop startIdx
      let openChar := tail.headD ' '
      let closeChar := if openChar = '{' then '}' else ']'
      (extractScan openChar closeChar tail 0 false false []).map
        (fun span => jsTrim (String.mk span))

/-- `String.prototype.startsWith`, on code points. -/
def startsWithL : List Char → List Char → Bool
  | _, [] => true
  | [], _ :: _ => false
  | c :: cs, p :: ps => c == p && startsWithL cs ps

/-- `String.prototype.endsWith`, on code points. -/
def endsWithL (s p : List Char) : Bool := startsWithL s.reverse p.reverse

/-- Step 1 of `parseJSONResponse`: trim and remove common code fences. -/
def cleanResponse (response : String) : String :=
  let cleaned := (jsTrim response).data
  let cleaned :=
    if startsWithL cleaned ("```json").data then cleaned.drop 7
    else if startsWithL cleaned ("```").data then cleaned.drop 3
    else cleaned
  let cleaned :=
    if endsWithL cleaned ("```").data then cleaned.take (cleaned.length - 3) else cleaned
  jsTrim (String.mk cleaned)

/-- `parseJSONResponse`: fence strip, direct parse, balanced-span extraction,
smart-quote normalization of the span, else normalization of the whole text.
`none` models the final `JSON.parse` throwing. -/
def parseJSONResponse (response : String) : Option Json :=
  let cleaned := cleanResponse response
  match jsonParse cleaned with
  | some v => some v
  | none =>
    match extractFirstJsonBlock cleaned with
    | some extracted =>
        (match jsonParse extracted with
         | some v => some v
         | none => jsonParse (normalizeQuotes extracted))
    | none => jsonParse (normalizeQuotes cleaned)

/-- The backoff delay computed in `callAI`'s retry loop:
`(attempt + 1) * 1000 + Math.floor(Math.random() * 250)`, the random draw
abstracted as `jitter < 250`. -/
def backoffMs (attempt jitter : Nat) : Nat :=
  (attempt + 1) * 1000 + jitter

/-! ### JavaScript value semantics used by the orchestrator and checklist -/

/-- Property access on a parsed JSON value (`undefined` is `none`).
`JSON.parse` keeps the last of duplicate keys, hence the last match wins. -/
def getFieldAux : List (String × Json) → String → Option Json
  | [], _ => none
  | (k', v) :: rest, k =>
      match getFieldAux rest k with
      | some r => some r
      | none => if k' == k then some v else none

def Json.getField : Json → String → Option Json
  | .obj fields, k => getFieldAux fields k
  | _, _ => none

def Json.getPath (j : Json) : List String → Option Json
  | [] => some j
  | k :: ks =>
      match j.getField k with
      | some v => v.getPath ks
      | none => none

/-- JavaScript truthiness of a JSON value. -/
def jsTruthy : Json → Bool
  | .null => false
  | .bool b => b
  | .num m _ => !(m == 0)
  | .str s => !(s == "")
  | .arr _ => true
  | .obj _ => true

def natToCharsAux : Nat → Nat → List Char
  | 0, _ => []
  | fuel + 1, n =>
      if n < 10 then [Char.ofNat (48 + n)]
      else natToCharsAux fuel (n / 10) ++ [Char.ofNat (48 + n % 10)]

def natToChars (n : Nat) : List Char := natToCharsAux (n + 1) n

def intToStr (i : Int) : String :=
  (if i < 0 then ("-") else ("")) ++ String.mk (natToChars i.natAbs)

/-- Decimal rendering of `mantissa * 10^exp10` (JavaScript `String(number)` on
the values the pipeline manipulates). -/
def numToStr (m : Int) (e : Int) : String :=
  if 0 ≤ e then intToStr (m * (10 : Int) ^ e.toNat)
  else
    let k := (-e).toNat
    let digits := natToChars m.natAbs
    let padded := List.replicate (k + 1 - digits.length) '0' ++ digits
    (if m < 0 then ("-") else ("")) ++ String.mk (padded.take (padded.length - k)) ++
      "." ++ String.mk (padded.drop (padded.length - k))

mutual

/-- JavaScript `String(·)` coercion of a JSON value. -/
def jsToString : Json → String
  | .null => "null"
  | .bool b => if b then ("true") else ("false")
  | .num m e => numToStr m e
  | .str s => s
  | .arr xs => jsJoinComma xs
  | .obj _ => "[object Object]"

/-- `Array.prototype.join(",")` (null elements render empty). -/
def jsJoinComma : List Json → String
  | [] => ""
  | x :: xs =>
      (match x with
       | .null => ""
       | y => jsToString y) ++
      (if xs.isEmpty then ("") else (",")) ++ jsJoinComma xs

end

/-- `String(v || '')`: the empty string for a falsy or absent value. -/
def jsStringOr (v : Option Json) : String :=
  match v with
  | none => ""
  | some j => if jsTruthy j then jsToString j else ("")

/-- `String(v)` where an absent property renders as `"undefined"`. -/
def jsStringCoerce (v : Option Json) : String :=
  match v with
  | none => "undefined"
  | some j => jsToString j

def jsToLower (s : String) : String := String.mk (s.data.map Char.toLower)

def startsWithChars (s sub : List Char) : Bool := startsWithL s sub

/-- `String.prototype.includes`. -/
def containsSub : List Char → List Char → Bool
  | [], sub => sub.isEmpty
  | c :: cs, sub => startsWithChars (c :: cs) sub || containsSub cs sub

def jsIncludes (s sub : String) : Bool := containsSub s.data sub.data

/-- `typeof v === 'object'` (true for objects, arrays and `null`). -/
def typeofObject : Option Json → Bool
  | some (.obj _) | some (.arr _) | some .null => true
  | _ => false

/-- `typeof v === 'string'`. -/
def typeofString : Option Json → Bool
  | some (.str _) => true
  | _ => false

/-- `typeof v === 'number'`. -/
def typeofNumber : Option Json → Bool
  | some (.num _ _) => true
  | _ => false

/-- `Array.isArray(v) ? v : []`. -/
def arrayOrEmpty (v : Option Json) : List Json :=
  match v with
  | some (.arr xs) => xs
  | _ => []

/-- The numeric value `mantissa * 10^exp10` as an exact rational. -/
def jsonNumToRat (m : Int) (e : Int) : ℚ :=
  if 0 ≤ e then (m : ℚ) * ((10 : ℕ) ^ e.toNat : ℕ)
  else (m : ℚ) / ((10 : ℕ) ^ (-e).toNat : ℕ)

/-- Executable test for `mantissa * 10^exp10 < 1/2`, in integer arithmetic. -/
def numLtHalf (m : Int) (e : Int) : Bool :=
  if 0 ≤ e then 2 * m * 10 ^ e.toNat < 1
  else 2 * m < 10 ^ (-e).toNat

theorem numLtHalf_iff (m e : Int) : numLtHalf m e = true ↔ jsonNumToRat m e < 1 / 2 := by
  unfold numLtHalf jsonNumToRat
  split
  · rw [decide_eq_true_iff]
    have h10 : (0 : ℚ) < ((10 : ℕ) ^ e.toNat : ℕ) := by positivity
    constructor
    · intro h
      have hm : (2 * m * 10 ^ e.toNat : ℚ) < 1 := by exact_mod_cast h
      push_cast at hm ⊢
      nlinarith
    · intro h
      have hm : (2 * (m : ℚ) * (10 : ℚ) ^ e.toNat) < 1 := by
        push_cast at h ⊢
        nlinarith
      have : ((2 * m * 10 ^ e.toNat : Int) : ℚ) < ((1 : Int) : ℚ) := by push_cast; linarith
      exact_mod_cast this
  · rw [decide_eq_true_iff]
    have h10 : (0 : ℚ) < ((10 : ℕ) ^ (-e).toNat : ℕ) := by positivity
    rw [div_lt_iff₀ h10]
    constructor
    · intro h
      have hm : ((2 * m : Int) : ℚ) < ((10 ^ (-e).toNat : Nat) : ℚ) := by exact_mod_cast h
      push_cast at hm ⊢
      nlinarith
    · intro h
      have hm : (2 * (m : ℚ)) < ((10 : ℚ) ^ (-e).toNat) := by push_cast at h ⊢; nlinarith
      have : ((2 * m : Int) : ℚ) < (((10 : Nat) ^ (-e).toNat : Nat) : ℚ) := by push_cast; linarith
      exact_mod_cast this

def boolToStr (b : Bool) : String := if b then ("true") else ("false")

/-! ### Data model (src/lib/supabase.ts, src/lib/agents.ts) -/

/-- A `planning_phases` row as the orchestrator sees it.  `output` is `none`
while the column is still NULL; `completed_at` is a completion sequence
number (timestamps are strictly increasing over a run). -/
structure PlanningPhase where
  id : Nat
  phase_type : String
  output : Option Json
  status : String
  completed_at : Nat
deriving DecidableEq, Repr

/-- The fixed ordered stage list of `AGENT_PHASES`, reduced to the stage
types (`type` is the unique key; prompts and schemas do not influence the
control flow modelled here). -/
def AGENT_PHASES : List String :=
  ["competitor", "strategy", "ux", "system", "data", "api", "ui", "prompts",
   "qa", "techwriter", "critic", "composer"]

/-- `byType[p.phase_type] = p.output || {}` built over the phase list, then
`byType[t] || {}` — the last phase of a type wins and falsy/absent outputs
become `{}`. -/
def byTypeOutput (phases : List PlanningPhase) (t : String) : Json :=
  match (phases.filter (fun p => p.phase_type == t)).getLast? with
  | some p =>
      match p.output with
      | some o => if jsTruthy o then o else Json.obj []
      | none => Json.obj []
  | none => Json.obj []

/-- `phase.output?.decisions` when it is an array, else nothing. -/
def decisionsOf (p : PlanningPhase) : List Json :=
  match p.output with
  | some o => arrayOrEmpty (o.getField ("decisions"))
  | none => []

/-- One folded ledger entry: `{key, value, reason}` as stored by
`map.set(d.key, {key: d.key, value: d.value, reason: d.reason})`. -/
structure LedgerEntry where
  key : Json
  value : Option Json
  reason : Option Json
deriving DecidableEq, Repr

/-- `Map.prototype.set`: update in place if the key exists, else append. -/
def mapSet (acc : List LedgerEntry) (k : Json) (v r : Option Json) : List LedgerEntry :=
  match acc with
  | [] => [⟨k, v, r⟩]
  | e :: rest => if e.key = k then ⟨e.key, v, r⟩ :: rest else e :: mapSet rest k v r

/-- The de-dupe loop of `extractDecisionLedger`: `if (d?.key) map.set(...)`. -/
def ledgerFold : List Json → List LedgerEntry → List LedgerEntry
  | [], acc => acc
  | d :: ds, acc =>
      match d.getField ("key") with
      | some k =>
          if jsTruthy k then
            ledgerFold ds (mapSet acc k (d.getField ("value")) (d.getField ("reason")))
          else ledgerFold ds acc
      | none => ledgerFold ds acc

/-- `extractDecisionLedger`: concatenate every phase's `decisions` array in
list order, then de-dupe by key keeping the last write. -/
def extractDecisionLedger (previousPhases : List PlanningPhase) : List LedgerEntry :=
  ledgerFold (previousPhases.flatMap decisionsOf) []

/-! ### src/lib/quality-checklist.ts -/

structure ChecklistItem where
  check : String
  passed : Bool
  details : Option String
deriving DecidableEq, Repr

structure RevisionReq where
  phase : String
  request : String
deriving DecidableEq, Repr

structure ChecklistResult where
  status : String
  items : List ChecklistItem
  failItems : List String
  targetedRevisions : List RevisionReq
deriving DecidableEq, Repr

def jsTruthyOpt : Option Json → Bool
  | some j => jsTruthy j
  | none => false

/-- `Array.isArray(path)` on a nested property. -/
def isArrayAt (j : Json) (path : List String) : Bool :=
  match j.getPath path with
  | some (.arr _) => true
  | _ => false

/-- `Array.isArray(v) && v.length > 0` on a nested property. -/
def nonEmptyArrayAt (j : Json) (path : List String) : Bool :=
  match j.getPath path with
  | some (.arr xs) => !xs.isEmpty
  | _ => false

/-- The keys gathered by `if (d?.key) { decisionKeys.add(d.key) ... }`,
in occurrence order (truthy keys only, duplicates kept). -/
def truthyKeys (ds : List Json) : List Json :=
  ds.filterMap (fun d =>
    match d.getField ("key") with
    | some k => if jsTruthy k then some k else none
    | none => none)

def hasDup : List Json → Bool
  | [] => false
  | k :: ks => ks.contains k || hasDup ks

/-- The `duplicates` set, in insertion order. -/
def dupKeysAux : List Json → List Json → List Json → List Json
  | [], _, dups => dups.reverse
  | k :: ks, seen, dups =>
      if seen.contains k then
        if dups.contains k then dupKeysAux ks seen dups
        else dupKeysAux ks seen (k :: dups)
      else dupKeysAux ks (k :: seen) dups

def dupKeys (keys : List Json) : List Json := dupKeysAux keys [] []

def joinCommaSp : List String → String
  | [] => ""
  | [s] => s
  | s :: rest => s ++ ", " ++ joinCommaSp rest

/-! The checklist's per-rule booleans, one definition per `const` local of
`runQualityChecklist` in src/lib/quality-checklist.ts. -/

/-- `ux?.auth?.choice || ''`. -/
def qcUxAuthChoice (phases : List PlanningPhase) : String :=
  jsStringOr ((byTypeOutput phases ("ux")).getPath ["auth", "choice"])

/-- The `users` entity's `columns` array from the data phase. -/
def qcUserColumns (phases : List PlanningPhase) : List Json :=
  let entities := arrayOrEmpty ((byTypeOutput phases ("data")).getField ("entities"))
  match entities.find?
      (fun e => jsToLower (jsStringCoerce (e.getField ("name"))) == "users") with
  | some u => arrayOrEmpty (u.getField ("columns"))
  | none => []

def qcHasPwdHash (phases : List PlanningPhase) : Bool :=
  (qcUserColumns phases).any
    (fun c => c.getField ("name") == some (Json.str ("password_hash")))

def qcHasFirebaseUid (phases : List PlanningPhase) : Bool :=
  (qcUserColumns phases).any
    (fun c => c.getField ("name") == some (Json.str ("firebase_uid")))

/-- Rule 1: single source of truth for auth. -/
def qcAuthConsistent (phases : List PlanningPhase) : Bool :=
  let lowerAuth := jsToLower (qcUxAuthChoice phases)
  (jsIncludes lowerAuth ("firebase") && qcHasFirebaseUid phases && !qcHasPwdHash phases) ||
  (jsIncludes lowerAuth ("local") && qcHasPwdHash phases && !qcHasFirebaseUid phases) ||
  (!jsIncludes lowerAuth ("firebase") && !jsIncludes lowerAuth ("local"))

/-- Rule 2: `ui?.motion && typeof ui.motion.durations === 'object'`. -/
def qcHasMotion (phases : List PlanningPhase) : Bool :=
  jsTruthyOpt ((byTypeOutput phases ("ui")).getField ("motion")) &&
    typeofObject ((byTypeOutput phases ("ui")).getPath ["motion", "durations"])

def qcHasSkeletons (phases : List PlanningPhase) : Bool :=
  nonEmptyArrayAt (byTypeOutput phases ("ui")) ["skeletons"]

def qcOpenApiYaml (phases : List PlanningPhase) : String :=
  match (byTypeOutput phases ("api")).getField ("openApiYaml") with
  | some (.str s) => s
  | _ => ""

def qcHasOpenApi (phases : List PlanningPhase) : Bool :=
  typeofString ((byTypeOutput phases ("api")).getField ("openApiYaml")) &&
    (qcOpenApiYaml phases).length > 0

def qcHasPagination (phases : List PlanningPhase) : Bool :=
  qcHasOpenApi phases && jsIncludes (qcOpenApiYaml phases) ("cursor")

def qcHasErrorModel (phases : List PlanningPhase) : Bool :=
  qcHasOpenApi phases &&
    (jsIncludes (qcOpenApiYaml phases) ("error") || jsIncludes (qcOpenApiYaml phases) ("4"))

/-- Rule 4: `system?.nonFunctional` with the three required arrays. -/
def qcHasNonFunctional (phases : List PlanningPhase) : Bool :=
  jsTruthyOpt ((byTypeOutput phases ("system")).getField ("nonFunctional")) &&
    isArrayAt (byTypeOutput phases ("system")) ["nonFunctional", "performance"] &&
    isArrayAt (byTypeOutput phases ("system")) ["nonFunctional", "reliability"] &&
    isArrayAt (byTypeOutput phases ("system")) ["nonFunctional", "privacy"]

/-- Rule 5: `system?.providersPolicies` with providers/quotas/caching. -/
def qcHasProvidersPolicies (phases : List PlanningPhase) : Bool :=
  jsTruthyOpt ((byTypeOutput phases ("system")).getField ("providersPolicies")) &&
    isArrayAt (byTypeOutput phases ("system")) ["providersPolicies", "providers"] &&
    typeofString ((byTypeOutput phases ("system")).getPath ["providersPolicies", "quotas"]) &&
    typeofString ((byTypeOutput phases ("system")).getPath ["providersPolicies", "caching"])

/-- Rule 6: a duplicate truthy decision key across all phases' decisions. -/
def qcLedgerDup (phases : List PlanningPhase) : Bool :=
  hasDup (truthyKeys (phases.flatMap decisionsOf))

def qcAllPromptTitles (phases : List PlanningPhase) : List String :=
  (arrayOrEmpty ((byTypeOutput phases ("prompts")).getField ("bolt")) ++
    arrayOrEmpty ((byTypeOutput phases ("prompts")).getField ("cursor"))).map
    (fun p => jsToLower (jsStringOr (p.getField ("title"))))

def qcHasScaffolding (phases : List PlanningPhase) : Bool :=
  (qcAllPromptTitles phases).any (fun t => jsIncludes t ("scaffold"))

def qcHasSmokeTest (phases : List PlanningPhase) : Bool :=
  (qcAllPromptTitles phases).any
    (fun t => jsIncludes t ("smoke") || jsIncludes t ("release"))

/-- Rule 8 guard: non-empty `opportunities` or `topInsights` on competitor. -/
def qcHasCompetitorData (phases : List PlanningPhase) : Bool :=
  jsTruthy (byTypeOutput phases ("competitor")) &&
    (nonEmptyArrayAt (byTypeOutput phases ("competitor")) ["opportunities"] ||
      nonEmptyArrayAt (byTypeOutput phases ("competitor")) ["topInsights"])

def qcFeaturesMust (phases : List PlanningPhase) : List Json :=
  match (byTypeOutput phases ("strategy")).getPath ["features", "must"] with
  | some (.arr xs) => xs
  | _ => []

def qcOpportunitiesReflected (phases : List PlanningPhase) : Bool :=
  !qcHasCompetitorData phases || !(qcFeaturesMust phases).isEmpty

/-- `runQualityChecklist` (src/lib/quality-checklist.ts), rule by rule in
source order; each `const` local is one of the `qc…` definitions above. -/
def runQualityChecklist (phases : List PlanningPhase) : ChecklistResult :=
  -- 1. Single source of truth for Auth
  let uxAuthChoice := qcUxAuthChoice phases
  let authConsistent := qcAuthConsistent phases
  let item1 : ChecklistItem :=
    ⟨"Single source of truth for Auth selected and reflected across UX, API, Data",
     authConsistent,
     if authConsistent then none
     else some ("UX auth: " ++ uxAuthChoice ++ ", Data has password_hash: " ++
       boolToStr (qcHasPwdHash phases) ++ ", firebase_uid: " ++
       boolToStr (qcHasFirebaseUid phases))⟩
  let fail1 : List String := if authConsistent then [] else ["Auth mismatch across phases"]
  let revs1 : List RevisionReq :=
    if authConsistent then []
    else
      [⟨"system", "Ensure auth choice in decisions matches UX auth.choice: " ++ uxAuthChoice⟩,
       ⟨"data", "Update users table: if Firebase auth, include firebase_uid and remove password_hash; if local auth, include password_hash and remove firebase_uid"⟩]
  -- 2. Design tokens include motion+loading states
  let hasMotion := qcHasMotion phases
  let hasSkeletons := qcHasSkeletons phases
  let item2 : ChecklistItem :=
    ⟨"Design tokens include motion+loading states", hasMotion && hasSkeletons,
     if hasMotion && hasSkeletons then none
     else some ("Motion: " ++ boolToStr hasMotion ++ ", Skeletons: " ++ boolToStr hasSkeletons)⟩
  let fail2 : List String :=
    if !hasMotion || !hasSkeletons then ["Missing motion or skeleton patterns in design system"]
    else []
  let revs2 : List RevisionReq :=
    if !hasMotion || !hasSkeletons then
      [⟨"ui", "Add motion durations (fast/base/slow) and skeleton loading patterns"⟩]
    else []
  -- 3. Pagination and error model specified in API
  let hasPagination := qcHasPagination phases
  let hasErrorModel := qcHasErrorModel phases
  let item3 : ChecklistItem :=
    ⟨"Pagination and error model specified in OpenAPI", hasPagination && hasErrorModel,
     if hasPagination && hasErrorModel then none
     else some ("Pagination: " ++ boolToStr hasPagination ++ ", Error model: " ++
       boolToStr hasErrorModel)⟩
  let fail3 : List String :=
    if !hasPagination || !hasErrorModel then ["Missing pagination or error model in API spec"]
    else []
  let revs3 : List RevisionReq :=
    if !hasPagination || !hasErrorModel then
      [⟨"api", "Ensure OpenAPI spec includes cursor-based pagination for list endpoints and proper error responses"⟩]
    else []
  -- 4. Non-functional (perf/reliability/privacy) noted
  let hasNonFunctional := qcHasNonFunctional phases
  let item4 : ChecklistItem :=
    ⟨"Non-functional (perf/reliability/privacy) noted", hasNonFunctional,
     if hasNonFunctional then none
     else some ("Missing nonFunctional requirements in system architecture")⟩
  let fail4 : List String :=
    if !hasNonFunctional then ["Missing non-functional requirements"] else []
  let revs4 : List RevisionReq :=
    if !hasNonFunctional then
      [⟨"system", "Add nonFunctional requirements covering performance, reliability, and privacy"⟩]
    else []
  -- 5. Providers & Policies list quotas/caching/attribution
  let hasProvidersPolicies := qcHasProvidersPolicies phases
  let item5 : ChecklistItem :=
    ⟨"Providers & Policies list quotas/caching/attribution", hasProvidersPolicies,
     if hasProvidersPolicies then none
     else some ("Missing providersPolicies in system architecture")⟩
  let fail5 : List String :=
    if !hasProvidersPolicies then ["Missing provider policies"] else []
  let revs5 : List RevisionReq :=
    if !hasProvidersPolicies then
      [⟨"system", "Add providersPolicies with quotas, caching, attribution, and data retention"⟩]
    else []
  -- 6. Decision Ledger consistent across all phases (no failItems push!)
  let keys := truthyKeys (phases.flatMap decisionsOf)
  let item6 : ChecklistItem :=
    ⟨"Decision Ledger consistent across all phases", !qcLedgerDup phases,
     if qcLedgerDup phases then
       some ("Duplicate decision keys: " ++ joinCommaSp ((dupKeys keys).map jsToString))
     else none⟩
  -- 7. Prompts include Scaffolding and Smoke Test
  let hasScaffolding := qcHasScaffolding phases
  let hasSmokeTest := qcHasSmokeTest phases
  let item7 : ChecklistItem :=
    ⟨"Prompts include Scaffolding and Smoke Test + Release Checklist",
     hasScaffolding && hasSmokeTest,
     if hasScaffolding && hasSmokeTest then none
     else some ("Scaffolding: " ++ boolToStr hasScaffolding ++ ", Smoke test: " ++
       boolToStr hasSmokeTest)⟩
  let fail7 : List String :=
    if !hasScaffolding || !hasSmokeTest then ["Missing required prompts"] else []
  let revs7 : List RevisionReq :=
    if !hasScaffolding || !hasSmokeTest then
      [⟨"prompts", "Add \"Project Scaffolding\" as first task and \"Smoke Test + Release Checklist\" as final task"⟩]
    else []
  -- 8. If competitor data present: opportunities reflected in features
  let hasCompetitorData := qcHasCompetitorData phases
  let opportunitiesReflected := qcOpportunitiesReflected phases
  let item8 : ChecklistItem :=
    ⟨"If competitor data present: opportunities reflected in features",
     opportunitiesReflected,
     if opportunitiesReflected then none
     else some ("Competitor opportunities not reflected in strategy features")⟩
  let fail8 : List String :=
    if hasCompetitorData && !opportunitiesReflected then
      ["Competitor insights not incorporated into strategy"]
    else []
  let revs8 : List RevisionReq :=
    if hasCompetitorData && !opportunitiesReflected then
      [⟨"strategy", "Incorporate competitor opportunities from competitor phase into Must/Should/Could features"⟩]
    else []
  let failItems := fail1 ++ fail2 ++ fail3 ++ fail4 ++ fail5 ++ fail7 ++ fail8
  { status := if failItems.isEmpty then "pass" else "fail"
    items := [item1, item2, item3, item4, item5, item6, item7, item8]
    failItems := failItems
    targetedRevisions := revs1 ++ revs2 ++ revs3 ++ revs4 ++ revs5 ++ revs7 ++ revs8 }

/-! ### src/lib/orchestrator.ts — runPhase -/

/-- The fatal stage outcomes thrown by `runPhase`:
`Failed to parse JSON after N attempts`,
`JSON validation failed after N attempts: <errors joined>`, and a rethrown
durable-store error (`if (insertErr) throw insertErr` / the update path) —
e.g. the NOT NULL violation when `phase_type` is undefined. -/
inductive StageError where
  | parseFailed (attempts : Nat)
  | validationFailed (attempts : Nat) (errors : List String)
  | dbError (message : String)
deriving DecidableEq, Repr

/-- One generation-backend call issued by `runPhase`, with the options the
source passes to `callAI` (`{temperature: 0.2}` for generation,
`{temperature: 0.1}` for repair). -/
structure CallRec where
  isRepair : Bool
  temperature : ℚ
deriving DecidableEq, Repr

def genCall : CallRec := ⟨false, 0.2⟩
def repairCall : CallRec := ⟨true, 0.1⟩

inductive AttemptResult where
  | done (out : Json)
  | toNext
  | fatalParse
  | fatalValidation (errors : List String)
deriving DecidableEq, Repr

/-- One iteration of `runPhase`'s `for (attempt …)` body.  `isLast` is the
negation of `attempt < maxRetries - 1`; `genResponse` / `repairResponse` are
the backend texts for the calls this iteration may issue.  The advisory
`crossPhaseChecks` only writes console warnings and is omitted. -/
def attemptStep (validate : Json → Bool × List String)
    (genResponse repairResponse : String) (isLast : Bool) :
    AttemptResult × List CallRec :=
  match parseJSONResponse genResponse with
  | none => if !isLast then (.toNext, [genCall]) else (.fatalParse, [genCall])
  | some output =>
      let v := validate output
      if v.1 then (.done output, [genCall])
      else if !isLast then
        match parseJSONResponse repairResponse with
        | none => (.toNext, [genCall, repairCall])
        | some output2 =>
            if (validate output2).1 then (.done output2, [genCall, repairCall])
            else (.toNext, [genCall, repairCall])
      else (.fatalValidation v.2, [genCall])

/-- `runPhase`'s attempt loop.  `responses n` is the text of the n-th
backend call of this stage run; `remaining` counts loop iterations still
allowed (the `0` case is unreachable for `maxRetries = 3`). -/
def runPhaseLoop (validate : Json → Bool × List String) (responses : Nat → String)
    (maxRetries : Nat) :
    Nat → Nat → Nat → List CallRec → Except StageError Json × List CallRec
  | 0, _, _, trace => (.error (.parseFailed maxRetries), trace)
  | r + 1, attempt, callIdx, trace =>
      let step := attemptStep validate (responses callIdx) (responses (callIdx + 1))
        (!decide (attempt < maxRetries - 1))
      let trace' := trace ++ step.2
      match step.1 with
      | .done out => (.ok out, trace')
      | .toNext =>
          runPhaseLoop validate responses maxRetries r (attempt + 1)
            (callIdx + step.2.length) trace'
      | .fatalParse => (.error (.parseFailed maxRetries), trace')
      | .fatalValidation errs => (.error (.validationFailed maxRetries errs), trace')

/-- The generate/parse/validate/repair loop of `runPhase` with the source's
`maxRetries = 3`. -/
def runPhaseCore (validate : Json → Bool × List String) (responses : Nat → String) :
    Except StageError Json × List CallRec :=
  runPhaseLoop validate responses 3 3 0 0 []

/-- A `planning_phases` row in the durable store. -/
structure DbRow where
  id : Nat
  phase_type : String
  status : String
deriving DecidableEq, Repr

/-- `runPhase` as seen by the durable store: it always INSERTS a fresh row
with status `processing`, then updates that same row to `completed` or
`failed`; prior rows of the same phase type are left untouched. -/
def runPhaseDb (validate : Json → Bool × List String) (responses : Nat → String)
    (db : List DbRow) (phaseType : String) (seq : Nat) :
    Except StageError PlanningPhase × List DbRow :=
  let id := db.length
  let db1 := db ++ [⟨id, phaseType, "processing"⟩]
  match runPhaseCore validate responses with
  | (.ok out, _) =>
      (.ok ⟨id, phaseType, some out, "completed", seq⟩,
       db1.map (fun r => if r.id = id then { r with status := "completed" } else r))
  | (.error e, _) =>
      (.error e, db1.map (fun r => if r.id = id then { r with status := "failed" } else r))

/-! ### src/lib/orchestrator.ts — convergence passes -/

/-- A stage re-execution, abstracting `runPhase` at the orchestrator level:
given the index of the re-invocation and the stage type, either the fresh
`PlanningPhase` or the propagated stage error. -/
def RunOracle : Type := Nat → String → Except StageError PlanningPhase

def exceptOk {α β : Type} (e : Except α β) : Prop := ∃ b, e = .ok b

/-- `completedPhases[idx] = rerun` at `findIndex(p => p.phase_type === t)`,
else `push`. -/
def replacePhase (phases : List PlanningPhase) (t : String) (p : PlanningPhase) :
    List PlanningPhase :=
  match phases.findIdx? (fun q => q.phase_type == t) with
  | some idx => phases.set idx p
  | none => phases ++ [p]

/-- The property names a property GET on a plain object literal `{}` finds
on the `Object.prototype` chain when no own property shadows them.  Every
one of them reads back truthy (a built-in function, or `Object.prototype`
itself for the `__proto__` accessor). -/
def OBJECT_PROTO_KEYS : List String :=
  ["constructor", "hasOwnProperty", "isPrototypeOf", "propertyIsEnumerable",
   "toLocaleString", "toString", "valueOf", "__defineGetter__", "__defineSetter__",
   "__lookupGetter__", "__lookupSetter__", "__proto__"]

/-- Truthiness of `byType[t]` where `byType` is the plain object built by
`for (const ap of AGENT_PHASES) byType[ap.type] = ap`: an own stage-type
property, or an inherited (always truthy) `Object.prototype` member. -/
def byTypeTruthy (t : String) : Bool :=
  AGENT_PHASES.contains t || OBJECT_PROTO_KEYS.contains t

/-- The shared re-run loop of `applyQualityChecklist` and
`applyCriticRevisions`: `const type = String(target || '').toLowerCase();
const phase = byType[type]; if (!phase) continue;` then re-run and replace
in place.  The `!phase` skip fires only when `byType[type]` is falsy; for a
`type` naming an inherited `Object.prototype` member the lookup yields the
truthy inherited object, so `runPhase` IS invoked with that junk descriptor
(its `phase.type` is undefined, so `findIndex(p => p.phase_type ===
phase.type)` never matches and the result would be pushed; in the source
this invocation in fact throws at the `phase_type NOT NULL` insert, which
the oracle models as an `.error`).  Returns the loop result together with
the list of lowercased targets actually re-invoked, in order. -/
def rerunLoop (rerun : RunOracle) :
    List String → Nat → List PlanningPhase → List String →
    Except StageError (Nat × List PlanningPhase) × List String
  | [], n, phases, trace => (.ok (n, phases), trace)
  | t :: ts, n, phases, trace =>
      let type := jsToLower t
      if byTypeTruthy type then
        match rerun n type with
        | .error e => (.error e, trace)
        | .ok p =>
            let phases2 :=
              if AGENT_PHASES.contains type then replacePhase phases type p
              else phases ++ [p]
            rerunLoop rerun ts (n + 1) phases2 (trace ++ [type])
      else rerunLoop rerun ts n phases trace

/-- `applyQualityChecklist`: run the checklist; on `pass` do nothing, else
re-run the phases named by `targetedRevisions` (`rev.phase` is already a
string, so `String(rev.phase || '')` is the identity on it). -/
def applyQualityChecklist (rerun : RunOracle) (completedPhases : List PlanningPhase) :
    Except StageError (List PlanningPhase) × List String :=
  let checklist := runQualityChecklist completedPhases
  if checklist.status == "pass" then (.ok completedPhases, [])
  else
    match rerunLoop rerun (checklist.targetedRevisions.map (fun r => r.phase))
        0 completedPhases [] with
    | (.error e, trace) => (.error e, trace)
    | (.ok (_, phases), trace) => (.ok phases, trace)

/-- The raw target strings of the first critic output's `revisionRequests`
(`String(r.targetPhase || '')`). -/
def criticTargets (out : Json) : List String :=
  (arrayOrEmpty (out.getField ("revisionRequests"))).map
    (fun r => jsStringOr (r.getField ("targetPhase")))

/-- `severity`: `typeof severityIndex === 'number' ? severityIndex : 0`. -/
def severityRat (out : Json) : ℚ :=
  match out.getField ("severityIndex") with
  | some (.num m e) => jsonNumToRat m e
  | _ => 0

/-- Executable form of `severity < 0.5`. -/
def severityLtHalf (out : Json) : Bool :=
  match out.getField ("severityIndex") with
  | some (.num m e) => numLtHalf m e
  | _ => true

/-- `applyCriticRevisions`: read the first critic output; if it has revision
requests or severity ≥ 0.5, re-run the requested phases once, then the
critic once, then the composer once; otherwise return immediately. -/
def applyCriticRevisions (rerun : RunOracle) (completedPhases : List PlanningPhase) :
    Except StageError (List PlanningPhase) × List String :=
  match completedPhases.find? (fun p => p.phase_type == "critic") with
  | none => (.ok completedPhases, [])
  | some critic =>
      match critic.output with
      | none => (.ok completedPhases, [])
      | some out =>
          if !jsTruthy out then (.ok completedPhases, [])
          else
            let revs := arrayOrEmpty (out.getField ("revisionRequests"))
            if revs.isEmpty && severityLtHalf out then (.ok completedPhases, [])
            else
              match rerunLoop rerun (criticTargets out) 0 completedPhases [] with
              | (.error e, trace) => (.error e, trace)
              | (.ok (n1, phases1), trace1) =>
                  let afterCritic :
                      Except StageError (Nat × List PlanningPhase) × List String :=
                    if AGENT_PHASES.contains ("critic") then
                      match rerun n1 ("critic") with
                      | .error e => (.error e, trace1)
                      | .ok p =>
                          (.ok (n1 + 1, replacePhase phases1 ("critic") p), trace1 ++ ["critic"])
                    else (.ok (n1, phases1), trace1)
                  match afterCritic with
                  | (.error e, trace) => (.error e, trace)
                  | (.ok (n2, phases2), trace2) =>
                      if AGENT_PHASES.contains ("composer") then
                        match rerun n2 ("composer") with
                        | .error e => (.error e, trace2)
                        | .ok p =>
                            (.ok (replacePhase phases2 ("composer") p), trace2 ++ ["composer"])
                      else (.ok phases2, trace2)

/-! ### src/lib/orchestrator.ts — runAllPhases -/

/-- First pass: run every phase once, stopping at the first failure.
Returns the accumulated completed phases, the stage types invoked (in
order), and the propagated error if any. -/
def firstPassLoop (runStage : Nat → String → Except StageError PlanningPhase) :
    List String → Nat → List PlanningPhase →
    List PlanningPhase × List String × Option StageError
  | [], _, acc => (acc, [], none)
  | t :: ts, i, acc =>
      match runStage i t with
      | .ok p =>
          let (acc', inv, err) := firstPassLoop runStage ts (i + 1) (acc ++ [p])
          (acc', t :: inv, err)
      | .error e => (acc, [t], some e)

structure RunOutcome where
  result : Except StageError Unit
  statusWrites : List String
  firstPassInvoked : List String
  phases : List PlanningPhase
deriving Repr

/-- `runAllPhases`: set status `planning`; run the fixed stage list; on a
first-pass failure write status `draft` and rethrow; otherwise run the
auto-fix pass and the critic pass (whose failures propagate with no status
write) and finally write status `completed`.  `generatePrompts` only inserts
prompt rows and warns, so it is omitted. -/
def runAllPhases (runStage : Nat → String → Except StageError PlanningPhase)
    (autofixOracle criticOracle : RunOracle) : RunOutcome :=
  match firstPassLoop runStage AGENT_PHASES 0 [] with
  | (phases, invoked, some e) =>
      ⟨.error e, ["planning", "draft"], invoked, phases⟩
  | (phases, invoked, none) =>
      match applyQualityChecklist autofixOracle phases with
      | (.error e, _) => ⟨.error e, ["planning"], invoked, phases⟩
      | (.ok phases1, _) =>
          match applyCriticRevisions criticOracle phases1 with
          | (.error e, _) => ⟨.error e, ["planning"], invoked, phases1⟩
          | (.ok phases2, _) =>
              ⟨.ok (), ["planning", "completed"], invoked, phases2⟩

/-- The project's persisted run-level status after the run: the last status
write, or the pre-run value if nothing was written. -/
def finalStatus (o : RunOutcome) (preStatus : String) : String :=
  o.statusWrites.getLastD preStatus

/-! ## Claims -/

/-- C7: the parser recovers JSON from noisy generated text by fence strip,
direct parse, balanced-span extraction, smart-quote normalization of the
span, and smart-quote normalization of the whole text, failing only after
all attempts are exhausted; in particular the fenced input
`Sure! ```json\n{"a":1}\n``` ` parses to `{"a":1}` and the smart-quote
wrapped input parses to `{"a":1}`. -/
theorem C7_parser_recovery :
    parseJSONResponse ("Sure! ```json\n\x7b\"a\":1\x7d\n```") =
      some (Json.obj [("a", Json.num 1 0)]) ∧
    parseJSONResponse ("\u201C\x7b\"a\":1\x7d\u201D") =
      some (Json.obj [("a", Json.num 1 0)]) ∧
    ∀ s, parseJSONResponse s = none →
      jsonParse (cleanResponse s) = none ∧
      ((∃ ex, extractFirstJsonBlock (cleanResponse s) = some ex ∧ jsonParse ex = none ∧
          jsonParse (normalizeQuotes ex) = none) ∨
        (extractFirstJsonBlock (cleanResponse s) = none ∧
          jsonParse (normalizeQuotes (cleanResponse s)) = none)) := by
  refine ⟨by decide, by decide, ?_⟩
  intro s h
  simp only [parseJSONResponse] at h
  rcases h1 : jsonParse (cleanResponse s) with _ | v
  · simp only [h1] at h
    rcases h2 : extractFirstJsonBlock (cleanResponse s) with _ | ex
    · simp only [h2] at h
      exact ⟨rfl, Or.inr ⟨rfl, h⟩⟩
    · simp only [h2] at h
      rcases h3 : jsonParse ex with _ | v2
      · simp only [h3] at h
        exact ⟨rfl, Or.inl ⟨ex, rfl, h3, h⟩⟩
      · simp only [h3] at h
        exact Option.noConfusion h
  · simp only [h1] at h
    exact Option.noConfusion h

/-- Witness for C7: the five-step pipeline is exhausted on an input with no
recoverable JSON. -/
theorem C7_parser_recovery_witness :
    parseJSONResponse ("nope") = none ∧
    (jsonParse (cleanResponse ("nope")) = none ∧
      ((∃ ex, extractFirstJsonBlock (cleanResponse ("nope")) = some ex ∧
          jsonParse ex = none ∧ jsonParse (normalizeQuotes ex) = none) ∨
        (extractFirstJsonBlock (cleanResponse ("nope")) = none ∧
          jsonParse (normalizeQuotes (cleanResponse ("nope"))) = none))) :=
  ⟨by decide, C7_parser_recovery.2.2 ("nope") (by decide)⟩

/-- Shared success oracle for concrete convergence-pass evaluations. -/
def okOracle : RunOracle :=
  fun n t => .ok ⟨1000 + n, t, some (Json.obj []), "completed", 1000 + n⟩

/-- C8: the retry delay of `callAI` is linear in the attempt number —
`(attempt+1)*1000 + jitter` — despite the source comment announcing
exponential backoff: the jitter-free delays `1000, 2000, 3000` form no
geometric progression. -/
theorem C8_backoff_linear :
    (∀ attempt jitter, backoffMs attempt jitter = (attempt + 1) * 1000 + jitter) ∧
    backoffMs 0 0 = 1000 ∧ backoffMs 1 0 = 2000 ∧ backoffMs 2 0 = 3000 ∧
    backoffMs 1 0 * backoffMs 1 0 ≠ backoffMs 0 0 * backoffMs 2 0 := by
  refine ⟨fun attempt jitter => rfl, rfl, rfl, rfl, by decide⟩

/-- The re-run outcome the source produces for a junk descriptor: `runPhase`
inserts `phase_type: phase.type` = undefined, violating the migration's
`phase_type text NOT NULL`, and rethrows the insert error. -/
def protoKeyOracle : RunOracle :=
  fun _ _ =>
    .error (.dbError ("null value in column phase_type violates not-null constraint"))

/-- Counterexample for C10 as stated: the lowercased target `constructor` is
not one of the pipeline's stage types, yet the loop does NOT silently skip
it — `byType['constructor']` finds the truthy inherited
`Object.prototype.constructor`, so `runPhase` is invoked (the trace records
the invocation) and with the real descriptor the invocation raises an
error that aborts the pass. -/
theorem C10_proto_target_counterexample :
    AGENT_PHASES.contains (jsToLower ("constructor")) = false ∧
    byTypeTruthy (jsToLower ("constructor")) = true ∧
    (rerunLoop okOracle [("constructor")] 0 [] []).2 = [("constructor")] ∧
    (rerunLoop protoKeyOracle [("constructor")] 0 [] []).1 =
      .error (.dbError ("null value in column phase_type violates not-null constraint")) := by
  refine ⟨by decide, by decide, rfl, rfl⟩

/-- C10 (amended): a revision request is silently skipped exactly when
`byType[type]` is falsy — its lowercased target is neither a pipeline
stage type nor an inherited `Object.prototype` member name.  For such a
target no stage is re-invoked, no error is raised, and the remaining
requests are processed exactly as if it were absent; a target naming an
inherited member (such as `constructor` or `__proto__`) is instead passed
to `runPhase`. -/
theorem C10_unknown_targets_skipped (rerun : RunOracle) (a b : List String)
    (bad : String) (n : Nat) (phases : List PlanningPhase) (trace : List String)
    (h : byTypeTruthy (jsToLower bad) = false) :
    rerunLoop rerun (a ++ bad :: b) n phases trace =
      rerunLoop rerun (a ++ b) n phases trace := by
  induction a generalizing n phases trace with
  | nil => simp only [List.nil_append, rerunLoop, h, Bool.false_eq_true, if_neg,
      reduceCtorEq, ite_false]
  | cons t ts ih =>
      simp only [List.cons_append, rerunLoop]
      by_cases hc : byTypeTruthy (jsToLower t) = true
      · simp only [hc, if_true]
        cases rerun n (jsToLower t) with
        | error e => rfl
        | ok p => exact ih _ _ _
      · simp only [hc, if_false, Bool.not_eq_true] at hc ⊢
        simp only [hc, Bool.false_eq_true, if_false]
        exact ih _ _ _

/-- Witness for C10: the unknown target `bogus` between two valid targets
changes nothing. -/
theorem C10_unknown_targets_skipped_witness :
    byTypeTruthy (jsToLower ("bogus")) = false ∧
    rerunLoop okOracle (["data"] ++ ("bogus") :: ["api"]) 0 [] [] =
      rerunLoop okOracle (["data"] ++ ["api"]) 0 [] [] :=
  ⟨by decide,
   C10_unknown_targets_skipped okOracle ["data"] ["api"] ("bogus") 0 [] [] (by decide)⟩

lemma attemptStep_calls (validate : Json → Bool × List String)
    (gen rep : String) (isLast : Bool) (c : CallRec)
    (hc : c ∈ (attemptStep validate gen rep isLast).2) :
    c = genCall ∨ c = repairCall := by
  unfold attemptStep at hc
  rcases h1 : parseJSONResponse gen with _ | o <;> simp only [h1] at hc
  · split at hc <;> simp_all
  · split at hc
    · simp_all
    · split at hc
      · rcases h2 : parseJSONResponse rep with _ | o2 <;> simp only [h2] at hc
        · simp_all
        · split at hc <;> simp_all
      · simp_all

lemma runPhaseLoop_calls (validate : Json → Bool × List String)
    (responses : Nat → String) (mr : Nat) :
    ∀ (fuel attempt callIdx : Nat) (trace : List CallRec) (c : CallRec),
      c ∈ (runPhaseLoop validate responses mr fuel attempt callIdx trace).2 →
      c ∈ trace ∨ c = genCall ∨ c = repairCall := by
  intro fuel
  induction fuel with
  | zero => intro attempt callIdx trace c hc; exact Or.inl hc
  | succ r ih =>
      intro attempt callIdx trace c hc
      unfold runPhaseLoop at hc
      rcases hstep : (attemptStep validate (responses callIdx) (responses (callIdx + 1))
          (!decide (attempt < mr - 1))) with ⟨res, calls⟩
      rw [hstep] at hc
      have hmem : c ∈ trace ++ calls → c ∈ trace ∨ c = genCall ∨ c = repairCall := by
        intro hm
        rcases List.mem_append.1 hm with h | h
        · exact Or.inl h
        · exact Or.inr (attemptStep_calls validate _ _ _ c (by rw [hstep]; exact h))
      cases res with
      | done out => exact hmem hc
      | toNext =>
          rcases ih (attempt + 1) (callIdx + calls.length) (trace ++ calls) c hc with h | h
          · exact hmem h
          · exact Or.inr h
      | fatalParse => exact hmem hc
      | fatalValidation errs => exact hmem hc

/-- C6: within a stage run, a repair call is issued exactly when a
generation response parses but fails validation and attempts remain; every
repair call is made at temperature 0.1, strictly below the generation
temperature 0.2; and when the first generation response parses and
validates, the stage completes after a single generation call (attempt
count 1) with no repair call. -/
theorem C6_repair_protocol :
    (∀ (validate : Json → Bool × List String) (responses : Nat → String) (o : Json),
      parseJSONResponse (responses 0) = some o → (validate o).1 = true →
      runPhaseCore validate responses = (.ok o, [genCall])) ∧
    (∀ (validate : Json → Bool × List String) (gen rep : String) (isLast : Bool),
      ((attemptStep validate gen rep isLast).2.any (fun c => c.isRepair)) = true ↔
        ∃ o, parseJSONResponse gen = some o ∧ (validate o).1 = false ∧ isLast = false) ∧
    (∀ (validate : Json → Bool × List String) (responses : Nat → String) (c : CallRec),
      c ∈ (runPhaseCore validate responses).2 →
      (c.isRepair = true → c.temperature = repairCall.temperature) ∧
      (c.isRepair = false → c.temperature = genCall.temperature)) ∧
    repairCall.temperature < genCall.temperature := by
  refine ⟨?_, ?_, ?_, ?_⟩
  · intro validate responses o h1 h2
    unfold runPhaseCore runPhaseLoop attemptStep
    simp [h1, h2]
  · intro validate gen rep isLast
    rcases h1 : parseJSONResponse gen with _ | o <;> simp only [attemptStep, h1]
    · cases isLast <;> simp [genCall]
    · cases hv : (validate o).1 <;> cases isLast
      · rcases h2 : parseJSONResponse rep with _ | o3
        · simp [genCall, repairCall, hv]
        · cases hv3 : (validate o3).1 <;> simp [genCall, repairCall, hv, hv3]
      · simp [genCall, hv]
      · simp [genCall, hv]
      · simp [genCall, hv]
  · intro validate responses c hc
    rcases runPhaseLoop_calls validate responses 3 3 0 0 [] c hc with h | h | h
    · exact absurd h (List.not_mem_nil c)
    · subst h; exact ⟨by simp [genCall], fun _ => rfl⟩
    · subst h; exact ⟨fun _ => rfl, by simp [repairCall]⟩
  · show (0.1 : ℚ) < 0.2
    norm_num

/-- Witness for C6: a first response that parses and validates completes the
stage with exactly one generation call. -/
theorem C6_repair_protocol_witness :
    parseJSONResponse ("1") = some (Json.num 1 0) ∧
    runPhaseCore (fun _ => (true, [])) (fun _ => ("1")) =
      (.ok (Json.num 1 0), [genCall]) :=
  ⟨by decide,
   C6_repair_protocol.1 (fun _ => (true, [])) (fun _ => ("1")) (Json.num 1 0)
     (by decide) rfl⟩

/-- The lowercased first-critic targets the re-run loop actually invokes
`runPhase` for: those for which `byType[type]` is truthy — pipeline stage
types AND inherited `Object.prototype` member names such as `constructor`
(the loop does not filter the latter out). -/
def criticRerunTargets (phases : List PlanningPhase) : List String :=
  match phases.find? (fun p => p.phase_type == ("critic")) with
  | none => []
  | some critic =>
      match critic.output with
      | none => []
      | some out =>
          if !jsTruthy out then []
          else ((criticTargets out).map jsToLower).filter (fun t => byTypeTruthy t)

/-- The guard under which `applyCriticRevisions` returns without re-running
anything: no critic result, falsy output, or no requests and severity < 0.5. -/
def criticSkips (phases : List PlanningPhase) : Bool :=
  match phases.find? (fun p => p.phase_type == ("critic")) with
  | none => true
  | some critic =>
      match critic.output with
      | none => true
      | some out =>
          !jsTruthy out ||
            ((arrayOrEmpty (out.getField ("revisionRequests"))).isEmpty &&
              severityLtHalf out)

lemma rerunLoop_ok (rerun : RunOracle) (hok : ∀ m t, exceptOk (rerun m t)) :
    ∀ (ts : List String) (n : Nat) (phases : List PlanningPhase) (trace : List String),
      ∃ n2 phases2, rerunLoop rerun ts n phases trace =
        (.ok (n2, phases2),
         trace ++ (ts.map jsToLower).filter (fun t => byTypeTruthy t)) := by
  intro ts
  induction ts with
  | nil => intro n phases trace; exact ⟨n, phases, by simp [rerunLoop]⟩
  | cons t ts ih =>
      intro n phases trace
      by_cases hc : byTypeTruthy (jsToLower t) = true
      · rcases hok n (jsToLower t) with ⟨p, hp⟩
        rcases ih (n + 1)
            (if AGENT_PHASES.contains (jsToLower t) then replacePhase phases (jsToLower t) p
             else phases ++ [p]) (trace ++ [jsToLower t])
          with ⟨n2, phases2, h⟩
        refine ⟨n2, phases2, ?_⟩
        simp only [rerunLoop, hc, if_true, hp, h, List.map_cons, List.filter_cons, hc,
          List.append_assoc, List.cons_append, List.nil_append]
      · rcases ih n phases trace with ⟨n2, phases2, h⟩
        refine ⟨n2, phases2, ?_⟩
        have hc2 : byTypeTruthy (jsToLower t) = false := by
          simpa using hc
        simp only [rerunLoop, hc2, Bool.false_eq_true, if_false, h, List.map_cons,
          List.filter_cons, hc2]

lemma rerunLoop_trace_take (rerun : RunOracle) :
    ∀ (ts : List String) (n : Nat) (phases : List PlanningPhase) (trace : List String),
      ∃ k, (rerunLoop rerun ts n phases trace).2 =
        trace ++ ((ts.map jsToLower).filter (fun t => byTypeTruthy t)).take k := by
  intro ts
  induction ts with
  | nil => intro n phases trace; exact ⟨0, by simp [rerunLoop]⟩
  | cons t ts ih =>
      intro n phases trace
      by_cases hc : byTypeTruthy (jsToLower t) = true
      · rcases hrun : rerun n (jsToLower t) with e | p
        · refine ⟨0, ?_⟩
          simp only [rerunLoop, hc, if_true, hrun, List.take_zero, List.append_nil]
        · rcases ih (n + 1)
              (if AGENT_PHASES.contains (jsToLower t) then replacePhase phases (jsToLower t) p
               else phases ++ [p]) (trace ++ [jsToLower t])
            with ⟨k, h⟩
          refine ⟨k + 1, ?_⟩
          simp only [rerunLoop, hc, if_true, hrun, h, List.map_cons, List.filter_cons, hc,
            List.take_succ_cons, List.append_assoc, List.cons_append, List.nil_append]
      · rcases ih n phases trace with ⟨k, h⟩
        refine ⟨k, ?_⟩
        have hc2 : byTypeTruthy (jsToLower t) = false := by simpa using hc
        simp only [rerunLoop, hc2, Bool.false_eq_true, if_false, h, List.map_cons,
          List.filter_cons, hc2]

lemma rerunLoop_ok_trace (rerun : RunOracle) :
    ∀ (ts : List String) (n : Nat) (phases : List PlanningPhase) (trace : List String)
      (res : Nat × List PlanningPhase) (tr : List String),
      rerunLoop rerun ts n phases trace = (.ok res, tr) →
      tr = trace ++ (ts.map jsToLower).filter (fun t => byTypeTruthy t) := by
  intro ts
  induction ts with
  | nil =>
      intro n phases trace res tr h
      simp only [rerunLoop, Prod.mk.injEq] at h
      simp [← h.2]
  | cons t ts ih =>
      intro n phases trace res tr h
      by_cases hc : byTypeTruthy (jsToLower t) = true
      · simp only [rerunLoop, hc, if_true] at h
        rcases hrun : rerun n (jsToLower t) with e | p
        · simp only [hrun, Prod.mk.injEq, reduceCtorEq, false_and] at h
        · simp only [hrun] at h
          have := ih (n + 1)
              (if AGENT_PHASES.contains (jsToLower t) then replacePhase phases (jsToLower t) p
               else phases ++ [p]) (trace ++ [jsToLower t])
            res tr h
          subst this
          simp only [List.map_cons, List.filter_cons]
          rw [if_pos hc]
          simp
      · have hc2 : byTypeTruthy (jsToLower t) = false := by simpa using hc
        simp only [rerunLoop, hc2, Bool.false_eq_true, if_false] at h
        have := ih n phases trace res tr h
        subst this
        simp only [List.map_cons, List.filter_cons]
        rw [if_neg (by simpa using hc2)]

lemma exists_take_append {α : Type} (l1 l2 : List α) (k : Nat) :
    ∃ k2, l1.take k = (l1 ++ l2).take k2 := by
  by_cases hk : k ≤ l1.length
  · refine ⟨k, ?_⟩
    rw [List.take_append_eq_append_take, Nat.sub_eq_zero_of_le hk, List.take_zero,
      List.append_nil]
  · refine ⟨l1.length, ?_⟩
    rw [List.take_append_eq_append_take, Nat.sub_self, List.take_zero, List.append_nil,
      List.take_length, List.take_of_length_le (le_of_not_le hk)]

lemma applyCritic_trace_of_ok (rerun : RunOracle) (hok : ∀ n t, exceptOk (rerun n t))
    (phases : List PlanningPhase) :
    (applyCriticRevisions rerun phases).2 =
      if criticSkips phases then []
      else criticRerunTargets phases ++ ["critic", "composer"] := by
  rcases hfind : phases.find? (fun p => p.phase_type == ("critic")) with _ | critic
  · simp [applyCriticRevisions, criticSkips, hfind]
  · rcases hout : critic.output with _ | out
    · simp [applyCriticRevisions, criticSkips, hfind, hout]
    · rcases htr : jsTruthy out with _ | _
      · simp [applyCriticRevisions, criticSkips, criticRerunTargets, hfind, hout, htr]
      · rcases hguard : (arrayOrEmpty (out.getField ("revisionRequests"))).isEmpty &&
            severityLtHalf out with _ | _
        · obtain ⟨n1, phases1, hloop⟩ := rerunLoop_ok rerun hok (criticTargets out) 0 phases []
          obtain ⟨pc, hpc⟩ := hok n1 ("critic")
          obtain ⟨pco, hpco⟩ := hok (n1 + 1) ("composer")
          simp only [applyCriticRevisions, criticSkips, criticRerunTargets, hfind, hout, htr,
            Bool.not_true, Bool.false_or, hguard, Bool.false_eq_true, if_false, hloop, hpc,
            List.nil_append]
          simp [AGENT_PHASES, hpco]
        · simp [applyCriticRevisions, criticSkips, criticRerunTargets, hfind, hout, htr, hguard]

lemma applyCritic_trace_take (rerun : RunOracle) (phases : List PlanningPhase) :
    ∃ k, (applyCriticRevisions rerun phases).2 =
      (criticRerunTargets phases ++ ["critic", "composer"]).take k := by
  rcases hfind : phases.find? (fun p => p.phase_type == ("critic")) with _ | critic
  · exact ⟨0, by simp [applyCriticRevisions, hfind]⟩
  · rcases hout : critic.output with _ | out
    · exact ⟨0, by simp [applyCriticRevisions, hfind, hout]⟩
    · rcases htr : jsTruthy out with _ | _
      · exact ⟨0, by simp [applyCriticRevisions, hfind, hout, htr]⟩
      · rcases hguard : (arrayOrEmpty (out.getField ("revisionRequests"))).isEmpty &&
            severityLtHalf out with _ | _
        · have hv : criticRerunTargets phases =
              ((criticTargets out).map jsToLower).filter (fun t => byTypeTruthy t) := by
            simp [criticRerunTargets, hfind, hout, htr]
          have hcrit : AGENT_PHASES.contains ("critic") = true := by decide
          have hcomp : AGENT_PHASES.contains ("composer") = true := by decide
          rcases hloopr : rerunLoop rerun (criticTargets out) 0 phases [] with ⟨res, tr1⟩
          cases res with
          | error e =>
              obtain ⟨k, hk⟩ := rerunLoop_trace_take rerun (criticTargets out) 0 phases []
              rw [hloopr] at hk
              simp only [List.nil_append] at hk
              obtain ⟨k2, hk2⟩ := exists_take_append
                (((criticTargets out).map jsToLower).filter (fun t => byTypeTruthy t))
                ["critic", "composer"] k
              refine ⟨k2, ?_⟩
              simp only [applyCriticRevisions, hfind, hout, htr, Bool.not_true,
                Bool.false_eq_true, if_false, hguard, hloopr, hv]
              rw [hk, hk2]
          | ok res1 =>
              obtain ⟨n1, phases1⟩ := res1
              have htr1 : tr1 = ((criticTargets out).map jsToLower).filter
                  (fun t => byTypeTruthy t) :=  by
                simpa using rerunLoop_ok_trace rerun (criticTargets out) 0 phases []
                  (n1, phases1) tr1 hloopr
              rcases hc2 : rerun n1 ("critic") with e2 | pc
              · refine ⟨(((criticTargets out).map jsToLower).filter
                  (fun t => byTypeTruthy t)).length, ?_⟩
                simp only [applyCriticRevisions, hfind, hout, htr, Bool.not_true,
                  Bool.false_eq_true, if_false, hguard, hloopr, hv, hcrit, if_true, hc2]
                rw [htr1, List.take_append_eq_append_take, Nat.sub_self, List.take_zero,
                  List.append_nil, List.take_length]
              · rcases hc3 : rerun (n1 + 1) ("composer") with e3 | pco
                · refine ⟨(((criticTargets out).map jsToLower).filter
                    (fun t => byTypeTruthy t)).length + 1, ?_⟩
                  simp only [applyCriticRevisions, hfind, hout, htr, Bool.not_true,
                    Bool.false_eq_true, if_false, hguard, hloopr, hv, hcrit, hcomp, if_true,
                    hc2, hc3]
                  rw [htr1, List.take_append_eq_append_take, Nat.add_sub_cancel_left,
                    List.take_of_length_le (Nat.le_succ _)]
                  simp
                · refine ⟨(((criticTargets out).map jsToLower).filter
                    (fun t => byTypeTruthy t)).length + 2, ?_⟩
                  simp only [applyCriticRevisions, hfind, hout, htr, Bool.not_true,
                    Bool.false_eq_true, if_false, hguard, hloopr, hv, hcrit, hcomp, if_true,
                    hc2, hc3]
                  rw [htr1, List.take_append_eq_append_take, Nat.add_sub_cancel_left,
                    List.take_of_length_le (by omega)]
                  simp
        · exact ⟨0, by simp [applyCriticRevisions, hfind, hout, htr, hguard]⟩

lemma severityLtHalf_iff (out : Json) :
    severityLtHalf out = true ↔ severityRat out < 1 / 2 := by
  unfold severityLtHalf severityRat
  rcases hf : out.getField ("severityIndex") with _ | j
  · norm_num
  · cases j with
    | num m e => exact numLtHalf_iff m e
    | null => norm_num
    | bool b => norm_num
    | str s => norm_num
    | arr xs => norm_num
    | obj fs => norm_num

/-- C2: the convergence controller performs at most one targeted-rerun
cycle per run.  For every oracle of stage re-runs the invocation trace is
a prefix of `rerunTargets ++ [critic, composer]`, where `rerunTargets` are
the first critic's lowercased targets that `byType` resolves truthily
(stage types and inherited `Object.prototype` member names alike — the
latter are invoked too, not skipped); when every re-run returns, the trace
is empty or exactly one full cycle; and the trace never depends on the
re-run critic's output — in particular it is the same even if the re-run
critic's severity is still ≥ 0.5. -/
theorem C2_bounded_convergence (rerun : RunOracle) (phases : List PlanningPhase) :
    (∃ k, (applyCriticRevisions rerun phases).2 =
      (criticRerunTargets phases ++ ["critic", "composer"]).take k) ∧
    ((∀ n t, exceptOk (rerun n t)) →
      (applyCriticRevisions rerun phases).2 = [] ∨
      (applyCriticRevisions rerun phases).2 =
        criticRerunTargets phases ++ ["critic", "composer"]) ∧
    (∀ rerun2 : RunOracle, (∀ n t, exceptOk (rerun n t)) → (∀ n t, exceptOk (rerun2 n t)) →
      (applyCriticRevisions rerun phases).2 = (applyCriticRevisions rerun2 phases).2) := by
  refine ⟨applyCritic_trace_take rerun phases, ?_, ?_⟩
  · intro hok
    rw [applyCritic_trace_of_ok rerun hok phases]
    by_cases hs : criticSkips phases = true
    · simp [hs]
    · simp [hs]
  · intro rerun2 hok hok2
    rw [applyCritic_trace_of_ok rerun hok phases, applyCritic_trace_of_ok rerun2 hok2 phases]

/-- A critic result demanding one revision of the data stage at severity 0.7. -/
def criticActivePhases : List PlanningPhase :=
  [⟨0, ("critic"), some (Json.obj
      [("revisionRequests", Json.arr [Json.obj [("targetPhase", Json.str ("data"))]]),
       ("severityIndex", Json.num 7 (-1))]), ("completed"), 0⟩]

/-- Witness for C2: one full cycle on a concrete escalating critic output. -/
theorem C2_bounded_convergence_witness :
    (applyCriticRevisions okOracle criticActivePhases).2 = [] ∨
    (applyCriticRevisions okOracle criticActivePhases).2 =
      criticRerunTargets criticActivePhases ++ ["critic", "composer"] :=
  (C2_bounded_convergence okOracle criticActivePhases).2.1 (fun _ _ => ⟨_, rfl⟩)

/-- C5 (amended): given a critic result with truthy output, the controller
enters the targeted-rerun cycle iff the revision-request list is non-empty
or the severity is ≥ 0.5; when neither holds it returns immediately — the
composition stage is NOT re-invoked (the claim's "still proceeds to the
recomposition step" fails on the code). -/
theorem C5_targeted_rerun_guard (rerun : RunOracle) (phases : List PlanningPhase)
    (c : PlanningPhase) (out : Json)
    (hfind : phases.find? (fun p => p.phase_type == ("critic")) = some c)
    (hout : c.output = some out) (htru : jsTruthy out = true) :
    ((arrayOrEmpty (out.getField ("revisionRequests"))).isEmpty = true ∧
        severityRat out < 1 / 2 →
      applyCriticRevisions rerun phases = (.ok phases, [])) ∧
    ((∀ n t, exceptOk (rerun n t)) →
      ((applyCriticRevisions rerun phases).2 ≠ [] ↔
        ((arrayOrEmpty (out.getField ("revisionRequests"))).isEmpty = false ∨
          1 / 2 ≤ severityRat out))) := by
  constructor
  · rintro ⟨h1, h2⟩
    have hg : ((arrayOrEmpty (out.getField ("revisionRequests"))).isEmpty &&
        severityLtHalf out) = true := by
      rw [h1, (severityLtHalf_iff out).mpr h2]
      rfl
    simp only [applyCriticRevisions, hfind, hout, htru, Bool.not_true, Bool.false_eq_true,
      if_false, hg, if_true]
  · intro hok
    rw [applyCritic_trace_of_ok rerun hok phases]
    have hs : criticSkips phases =
        ((arrayOrEmpty (out.getField ("revisionRequests"))).isEmpty &&
          severityLtHalf out) := by
      simp [criticSkips, hfind, hout, htru]
    rw [hs]
    by_cases hg : ((arrayOrEmpty (out.getField ("revisionRequests"))).isEmpty &&
        severityLtHalf out) = true
    · rw [if_pos hg]
      rw [Bool.and_eq_true] at hg
      obtain ⟨hg1, hg2⟩ := hg
      apply iff_of_false
      · exact fun h => h rfl
      · rintro (h | h)
        · rw [hg1] at h
          simp at h
        · exact absurd ((severityLtHalf_iff out).mp hg2) (not_lt.mpr h)
    · rw [if_neg hg]
      apply iff_of_true
      · simp
      · by_cases h1 : (arrayOrEmpty (out.getField ("revisionRequests"))).isEmpty = true
        · right
          have hLt : severityLtHalf out = false := by
            cases hb : severityLtHalf out
            · rfl
            · exact absurd (by simp [h1, hb]) hg
          by_contra hnot
          have hlt2 : severityRat out < 1 / 2 := lt_of_not_le hnot
          rw [(severityLtHalf_iff out).mpr hlt2] at hLt
          simp at hLt
        · exact Or.inl (by simpa using h1)

/-- A quiet critic output: no revision requests, severity 0.2. -/
def criticSkipOutput : Json :=
  Json.obj [("revisionRequests", Json.arr []), ("severityIndex", Json.num 2 (-1))]

def criticSkipPhases : List PlanningPhase :=
  [⟨0, ("critic"), some criticSkipOutput, ("completed"), 0⟩,
   ⟨1, ("composer"), some (Json.obj []), ("completed"), 1⟩]

/-- Counterexample for C5 as stated: with an empty revision list and
severity 0.2 the controller returns unchanged and the composer phase,
though present, is never re-invoked — no recomposition happens. -/
theorem C5_no_recompose_counterexample :
    applyCriticRevisions okOracle criticSkipPhases = (.ok criticSkipPhases, []) ∧
    ("composer") ∈ criticSkipPhases.map (fun p => p.phase_type) ∧
    ("composer") ∉ (applyCriticRevisions okOracle criticSkipPhases).2 := by
  have h : applyCriticRevisions okOracle criticSkipPhases = (.ok criticSkipPhases, []) := rfl
  refine ⟨h, by decide, ?_⟩
  rw [h]
  simp

/-- Witness for C5: the amended guard theorem applied to the quiet critic. -/
theorem C5_targeted_rerun_guard_witness :
    ((arrayOrEmpty (criticSkipOutput.getField ("revisionRequests"))).isEmpty = true ∧
      severityRat criticSkipOutput < 1 / 2) ∧
    applyCriticRevisions okOracle criticSkipPhases = (.ok criticSkipPhases, []) :=
  ⟨⟨by decide, (severityLtHalf_iff criticSkipOutput).mp (by decide)⟩,
   (C5_targeted_rerun_guard okOracle criticSkipPhases _ criticSkipOutput rfl rfl
       (by decide)).1
     ⟨by decide, (severityLtHalf_iff criticSkipOutput).mp (by decide)⟩⟩

lemma firstPassLoop_fail (runStage : Nat → String → Except StageError PlanningPhase) :
    ∀ (ts : List String) (start : Nat) (acc : List PlanningPhase) (i : Nat) (e : StageError),
      i < ts.length →
      (∀ j, j < i → exceptOk (runStage (start + j) (ts.getD j ("")))) →
      runStage (start + i) (ts.getD i ("")) = .error e →
      ∃ ph, firstPassLoop runStage ts start acc = (ph, ts.take (i + 1), some e) := by
  intro ts
  induction ts with
  | nil =>
      intro start acc i e hi
      exact absurd hi (by simp)
  | cons t ts ih =>
      intro start acc i e hi hok herr
      cases i with
      | zero =>
          simp only [List.getD_cons_zero, Nat.add_zero] at herr
          refine ⟨acc, ?_⟩
          simp only [firstPassLoop, herr, List.take_succ_cons, List.take_zero]
      | succ i =>
          obtain ⟨p, hp⟩ := hok 0 (Nat.succ_pos i)
          simp only [List.getD_cons_zero, Nat.add_zero] at hp
          have hok2 : ∀ j, j < i → exceptOk (runStage (start + 1 + j) (ts.getD j (""))) := by
            intro j hj
            have hc : start + 1 + j = start + (j + 1) := by omega
            rw [hc]
            simpa [List.getD_cons_succ] using hok (j + 1) (Nat.succ_lt_succ hj)
          have herr2 : runStage (start + 1 + i) (ts.getD i ("")) = .error e := by
            have hc : start + 1 + i = start + (i + 1) := by omega
            rw [hc]
            simpa [List.getD_cons_succ] using herr
          obtain ⟨ph, h⟩ := ih (start + 1) (acc ++ [p]) i e (by simpa using hi) hok2 herr2
          refine ⟨ph, ?_⟩
          simp only [firstPassLoop, hp, h, List.take_succ_cons]

/-- C1 (amended): when a stage of the first pass exhausts its retry budget,
no subsequent stage is invoked (the invoked list is exactly the prefix up
to and including the failing stage), the stage's error — carrying its final
validation error list — propagates to the caller unchanged, and the
project's persisted status is set to the FIXED value `draft`, not to its
pre-run value: whatever the status was before the run, the final persisted
status is `draft`. -/
theorem C1_abort_semantics (runStage : Nat → String → Except StageError PlanningPhase)
    (autofixO criticO : RunOracle) (i : Nat) (e : StageError)
    (hi : i < AGENT_PHASES.length)
    (hok : ∀ j, j < i → exceptOk (runStage j (AGENT_PHASES.getD j (""))))
    (herr : runStage i (AGENT_PHASES.getD i ("")) = .error e) :
    (runAllPhases runStage autofixO criticO).result = .error e ∧
    (runAllPhases runStage autofixO criticO).firstPassInvoked = AGENT_PHASES.take (i + 1) ∧
    (runAllPhases runStage autofixO criticO).statusWrites = ["planning", "draft"] ∧
    ∀ preStatus, finalStatus (runAllPhases runStage autofixO criticO) preStatus = ("draft") := by
  obtain ⟨ph, h⟩ := firstPassLoop_fail runStage AGENT_PHASES 0 [] i e hi
    (by intro j hj; simpa using hok j hj) (by simpa using herr)
  unfold runAllPhases
  rw [h]
  exact ⟨rfl, rfl, rfl, fun preStatus => rfl⟩

/-- A first stage that exhausts all attempts with a validation error. -/
def failingFirstStage : Nat → String → Except StageError PlanningPhase :=
  fun _ _ => .error (.validationFailed 3 [("/ must have required property name")])

/-- Counterexample for C1 as stated: with pre-run status `completed`, a
first-pass retry exhaustion leaves the persisted status `draft` — it does
not revert to the pre-run value.  (The other parts of the claim hold: the
first stage alone was invoked and its error reached the caller.) -/
theorem C1_no_revert_counterexample :
    finalStatus (runAllPhases failingFirstStage okOracle okOracle) ("completed") = ("draft") ∧
    (("draft") : String) ≠ ("completed") ∧
    (runAllPhases failingFirstStage okOracle okOracle).result =
      .error (.validationFailed 3 [("/ must have required property name")]) ∧
    (runAllPhases failingFirstStage okOracle okOracle).firstPassInvoked = [("competitor")] := by
  exact ⟨rfl, by decide, rfl, rfl⟩

/-- Witness for C1: the amended abort theorem applied to a run whose first
stage fails. -/
theorem C1_abort_semantics_witness :
    (runAllPhases failingFirstStage okOracle okOracle).statusWrites = ["planning", "draft"] ∧
    finalStatus (runAllPhases failingFirstStage okOracle okOracle) ("completed") = ("draft") :=
  ⟨(C1_abort_semantics failingFirstStage okOracle okOracle 0
      (.validationFailed 3 [("/ must have required property name")]) (by decide)
      (fun j hj => absurd hj (Nat.not_lt_zero j)) rfl).2.2.1,
   (C1_abort_semantics failingFirstStage okOracle okOracle 0
      (.validationFailed 3 [("/ must have required property name")]) (by decide)
      (fun j hj => absurd hj (Nat.not_lt_zero j)) rfl).2.2.2 ("completed")⟩

/-! ### C3: overall checklist status vs individual rules -/

def ledgerDupPhases : List PlanningPhase :=
  [⟨1, ("ui"),
    some (.obj [(("motion"), .obj [(("durations"), .obj [])]),
                (("skeletons"), .arr [.str ("s")])]),
    ("completed"), 1⟩,
   ⟨2, ("api"),
    some (.obj [(("openApiYaml"), .str ("cursor error"))]),
    ("completed"), 2⟩,
   ⟨3, ("system"),
    some (.obj [(("nonFunctional"),
                  .obj [(("performance"), .arr []), (("reliability"), .arr []),
                        (("privacy"), .arr [])]),
                (("providersPolicies"),
                  .obj [(("providers"), .arr []), (("quotas"), .str ("q")),
                        (("caching"), .str ("c"))]),
                (("decisions"),
                  .arr [.obj [(("key"), .str ("auth"))],
                        .obj [(("key"), .str ("auth"))]])]),
    ("completed"), 3⟩,
   ⟨4, ("prompts"),
    some (.obj [(("bolt"),
                  .arr [.obj [(("title"), .str ("Project Scaffolding"))],
                        .obj [(("title"), .str ("Smoke Test + Release Checklist"))]])]),
    ("completed"), 4⟩]

/-- C3: the checklist engine's overall status is `fail` exactly when one of
the rules OTHER than the ledger-integrity rule (item index 5) fails; the
ledger-integrity item itself records `passed = !hasDup`, but rule 6 pushes
nothing onto `failItems`, so a ledger duplicate alone does NOT make the
overall status `fail` — refuting the claim's second half. -/
theorem C3_overall_status (phases : List PlanningPhase) :
    ((runQualityChecklist phases).status = ("fail") ↔
      (((runQualityChecklist phases).items.eraseIdx 5).any (fun it => !it.passed)) = true) ∧
    ((runQualityChecklist phases).items.getD 5 ⟨("?"), true, none⟩).passed
      = !qcLedgerDup phases := by
  have h8 : (qcHasCompetitorData phases && !qcOpportunitiesReflected phases)
      = !qcOpportunitiesReflected phases := by
    unfold qcOpportunitiesReflected
    cases qcHasCompetitorData phases <;> simp
  simp only [runQualityChecklist, ← Bool.not_and, h8]
  cases hA : qcAuthConsistent phases <;>
    cases h2 : (qcHasMotion phases && qcHasSkeletons phases) <;>
    cases h3 : (qcHasPagination phases && qcHasErrorModel phases) <;>
    cases h4 : qcHasNonFunctional phases <;>
    cases h5 : qcHasProvidersPolicies phases <;>
    cases h7 : (qcHasScaffolding phases && qcHasSmokeTest phases) <;>
    cases hOp : qcOpportunitiesReflected phases <;>
    simp_all

/-- C3 counterexample: a phase set on which every rule but the
ledger-integrity rule passes and the folded ledger has a duplicate key
(`auth` is declared twice): the ledger item reports `passed = false`, yet
the returned overall status is `pass`, not `fail`. -/
theorem C3_ledger_rule_counterexample :
    (runQualityChecklist ledgerDupPhases).status = ("pass") ∧
    ((runQualityChecklist ledgerDupPhases).items.getD 5 ⟨("?"), true, none⟩).passed = false ∧
    qcLedgerDup ledgerDupPhases = true := by decide

/-! ### C4: decision-ledger fold order -/

instance : LawfulBEq Json where
  eq_of_beq h := (Json.beq_iff_eq _ _).1 h
  rfl := (Json.beq_iff_eq _ _).2 rfl

def declKey (d : Json) : Option Json :=
  match d.getField ("key") with
  | some k => if jsTruthy k then some k else none
  | none => none

def entryFor (l : List LedgerEntry) (k : Json) : Option LedgerEntry :=
  l.find? (fun e => decide (e.key = k))

def lastWrite (k : Json) : List Json → Option Json
  | [] => none
  | d :: ds =>
      match lastWrite k ds with
      | some r => some r
      | none => if declKey d = some k then some d else none

lemma entryFor_mapSet (acc : List LedgerEntry) (k : Json) (v r : Option Json) (k2 : Json) :
    entryFor (mapSet acc k v r) k2 =
      if k2 = k then some ⟨k, v, r⟩ else entryFor acc k2 := by
  induction acc with
  | nil =>
      by_cases h : k2 = k
      · subst h; simp [entryFor, mapSet, List.find?]
      · simp [entryFor, mapSet, List.find?, h, Ne.symm h]
  | cons e rest ih =>
      by_cases he : e.key = k
      · by_cases h : k2 = k
        · subst h; simp [entryFor, mapSet, he, List.find?]
        · have h2 : ¬ (k = k2) := fun hh => h hh.symm
          have hne : ¬ (e.key = k2) := by rw [he]; exact h2
          simp [entryFor, mapSet, he, h, List.find?, hne, h2]
      · by_cases hek : e.key = k2
        · have h : ¬ (k2 = k) := by intro hh; exact he (hek.trans hh)
          simp [entryFor, mapSet, he, h, List.find?, hek]
        · simp only [mapSet, if_neg he]
          simp only [entryFor, List.find?] at ih ⊢
          simp [hek, ih]

lemma ledgerFold_entryFor (ds : List Json) (acc : List LedgerEntry) (k : Json) :
    entryFor (ledgerFold ds acc) k =
      match lastWrite k ds with
      | some d => some ⟨k, d.getField ("value"), d.getField ("reason")⟩
      | none => entryFor acc k := by
  induction ds generalizing acc with
  | nil => simp [ledgerFold, lastWrite]
  | cons d ds ih =>
      cases hk : d.getField ("key") with
      | none =>
          simp only [ledgerFold, lastWrite, declKey, hk]
          rw [ih]
          cases lastWrite k ds <;> simp
      | some k2 =>
          by_cases ht : jsTruthy k2 = true
          · simp only [ledgerFold, lastWrite, declKey, hk, if_pos ht]
            rw [ih, entryFor_mapSet]
            cases lastWrite k ds with
            | some d2 => simp
            | none =>
                by_cases hkk : k2 = k
                · subst hkk; simp
                · have h2 : ¬ (k = k2) := fun hh => hkk hh.symm
                  simp [hkk, h2]
          · simp only [ledgerFold, lastWrite, declKey, hk, if_neg ht]
            rw [ih]
            cases lastWrite k ds with
            | some d2 => simp
            | none => simp [ht]

lemma mapSet_keys (acc : List LedgerEntry) (k : Json) (v r : Option Json) :
    (mapSet acc k v r).map LedgerEntry.key =
      if k ∈ acc.map LedgerEntry.key then acc.map LedgerEntry.key
      else acc.map LedgerEntry.key ++ [k] := by
  induction acc with
  | nil => simp [mapSet]
  | cons e rest ih =>
      by_cases he : e.key = k
      · simp [mapSet, he]
      · have hne : ¬ (k = e.key) := fun hh => he hh.symm
        simp only [mapSet, if_neg he, List.map_cons, ih, List.mem_cons]
        by_cases hm : k ∈ rest.map LedgerEntry.key
        · simp [hm, hne]
        · simp [hm, hne]

lemma ledgerFold_keys_nodup (ds : List Json) (acc : List LedgerEntry)
    (h : (acc.map LedgerEntry.key).Nodup) :
    ((ledgerFold ds acc).map LedgerEntry.key).Nodup := by
  induction ds generalizing acc with
  | nil => exact h
  | cons d ds ih =>
      cases hk : d.getField ("key") with
      | none =>
          simp only [ledgerFold, hk]
          exact ih acc h
      | some k2 =>
          by_cases ht : jsTruthy k2 = true
          · simp only [ledgerFold, hk, if_pos ht]
            refine ih _ ?_
            rw [mapSet_keys]
            by_cases hm : k2 ∈ acc.map LedgerEntry.key
            · simpa [hm] using h
            · simp [hm, List.nodup_append, h]
          · simp only [ledgerFold, hk, if_neg ht]
            exact ih acc h

/-- C4: the folded decision ledger keeps at most one entry per key (first
conjunct), and the surviving entry for a key carries the value/reason of the
LAST declaration of that key in phase-ARRAY order (second conjunct):
`extractDecisionLedger` iterates `previousPhases` in list order and
`map.set` overwrites in place.  Array order is first-pass pipeline order —
a targeted re-run replaces its stage's element in place — so the winner is
determined by declared position, not by completion time, refuting the
claim's completion-order half. -/
theorem C4_ledger_last_write (phases : List PlanningPhase) (k : Json) :
    ((extractDecisionLedger phases).map LedgerEntry.key).Nodup ∧
    entryFor (extractDecisionLedger phases) k =
      (lastWrite k (phases.flatMap decisionsOf)).map
        (fun d => ⟨k, d.getField ("value"), d.getField ("reason")⟩) := by
  constructor
  · exact ledgerFold_keys_nodup _ _ (by simp)
  · rw [extractDecisionLedger, ledgerFold_entryFor]
    cases lastWrite k (phases.flatMap decisionsOf) <;> simp [entryFor]

def dataPhase1 : PlanningPhase :=
  ⟨1, ("data"),
   some (.obj [(("decisions"),
     .arr [.obj [(("key"), .str ("auth")), (("value"), .str ("x"))]])]),
   ("completed"), 1⟩

def apiPhase1 : PlanningPhase :=
  ⟨2, ("api"),
   some (.obj [(("decisions"),
     .arr [.obj [(("key"), .str ("auth")), (("value"), .str ("y"))]])]),
   ("completed"), 2⟩

def dataPhaseRerun : PlanningPhase :=
  ⟨3, ("data"),
   some (.obj [(("decisions"),
     .arr [.obj [(("key"), .str ("auth")), (("value"), .str ("z"))]])]),
   ("completed"), 3⟩

/-- C4 counterexample: `data` (position 0) and `api` (position 1) both
declare key `auth`; after the targeted re-run of `data` its replacement
(completed_at 3) still sits at position 0, so `api`'s older entry
(completed_at 2, value `y`) wins the fold — the most recently completed
stage does NOT win. -/
theorem C4_completion_order_counterexample :
    extractDecisionLedger (replacePhase [dataPhase1, apiPhase1] ("data") dataPhaseRerun)
      = [⟨Json.str ("auth"), some (Json.str ("y")), none⟩] ∧
    apiPhase1.completed_at < dataPhaseRerun.completed_at := by decide

/-! ### C9: one live result per stage type -/

lemma replacePhase_nil (t : String) (p : PlanningPhase) :
    replacePhase [] t p = [p] := rfl

lemma replacePhase_cons (q : PlanningPhase) (rest : List PlanningPhase)
    (t : String) (p : PlanningPhase) :
    replacePhase (q :: rest) t p =
      if q.phase_type = t then p :: rest else q :: replacePhase rest t p := by
  simp only [replacePhase, List.findIdx?_cons]
  by_cases h : q.phase_type = t
  · simp [h]
  · have hb : ¬ (q.phase_type == t) = true := by simpa using h
    simp only [hb, if_false, if_neg h]
    cases hf : List.findIdx? (fun q => q.phase_type == t) rest with
    | none => simp [hf]
    | some i => simp [hf]

lemma replacePhase_types_mem (t : String) (p : PlanningPhase) (hp : p.phase_type = t) :
    ∀ (phases : List PlanningPhase) (s : String),
      s ∈ (replacePhase phases t p).map PlanningPhase.phase_type →
      s ∈ phases.map PlanningPhase.phase_type ∨ s = t
  | [], s => by
      intro h
      right
      simpa [replacePhase_nil, hp] using h
  | q :: rest, s => by
      rw [replacePhase_cons]
      by_cases h : q.phase_type = t
      · simp only [if_pos h, List.map_cons, List.mem_cons, hp]
        rintro (h1 | h2)
        · exact Or.inr h1
        · exact Or.inl (Or.inr h2)
      · simp only [if_neg h, List.map_cons, List.mem_cons]
        rintro (h1 | h2)
        · exact Or.inl (Or.inl h1)
        · rcases replacePhase_types_mem t p hp rest s h2 with h3 | h3
          · exact Or.inl (Or.inr h3)
          · exact Or.inr h3

lemma filter_eq_nil_of_not_mem_types (t : String) :
    ∀ (phases : List PlanningPhase),
      t ∉ phases.map PlanningPhase.phase_type →
      phases.filter (fun q => q.phase_type == t) = []
  | [], _ => rfl
  | q :: rest, h => by
      simp only [List.map_cons, List.mem_cons, not_or] at h
      have hq : ¬ (q.phase_type == t) = true := by
        simp only [beq_iff_eq]
        exact fun hh => h.1 hh.symm
      simp only [List.filter_cons, hq, if_false]
      exact filter_eq_nil_of_not_mem_types t rest h.2

lemma replacePhase_spec (t : String) (p : PlanningPhase) (hp : p.phase_type = t) :
    ∀ phases : List PlanningPhase,
      (phases.map PlanningPhase.phase_type).Nodup →
      (((replacePhase phases t p).map PlanningPhase.phase_type).Nodup ∧
       (replacePhase phases t p).find? (fun q => q.phase_type == t) = some p ∧
       ((replacePhase phases t p).filter (fun q => q.phase_type == t)).length = 1)
  | [], _ => by
      refine ⟨by simp [replacePhase_nil], ?_, ?_⟩
      · simp [replacePhase_nil, List.find?, hp]
      · simp [replacePhase_nil, List.filter, hp]
  | q :: rest, hnd => by
      simp only [List.map_cons, List.nodup_cons] at hnd
      obtain ⟨hq_nin, hnd_rest⟩ := hnd
      rw [replacePhase_cons]
      by_cases hqt : q.phase_type = t
      · refine ⟨?_, ?_, ?_⟩
        · rw [if_pos hqt]
          simp only [List.map_cons, List.nodup_cons, hp]
          exact ⟨by rw [← hqt]; exact hq_nin, hnd_rest⟩
        · rw [if_pos hqt]
          simp [List.find?, hp]
        · rw [if_pos hqt]
          have hrest : rest.filter (fun q => q.phase_type == t) = [] :=
            filter_eq_nil_of_not_mem_types t rest (by rw [← hqt]; exact hq_nin)
          simp [List.filter_cons, hp, hrest]
      · have hb : ¬ (q.phase_type == t) = true := by simpa using hqt
        obtain ⟨ih1, ih2, ih3⟩ := replacePhase_spec t p hp rest hnd_rest
        refine ⟨?_, ?_, ?_⟩
        · rw [if_neg hqt]
          simp only [List.map_cons, List.nodup_cons]
          refine ⟨?_, ih1⟩
          intro hmem
          rcases replacePhase_types_mem t p hp rest q.phase_type hmem with h3 | h3
          · exact hq_nin h3
          · exact hqt h3
        · rw [if_neg hqt]
          have hb2 : (q.phase_type == t) = false := by simpa using hqt
          simp only [List.find?, hb2]
          exact ih2
        · rw [if_neg hqt]
          have hb2 : (q.phase_type == t) = false := by simpa using hqt
          simp only [List.filter_cons, hb2, if_false]
          exact ih3

/-- C9: the IN-MEMORY half of the claim holds: on a `completedPhases` array
with pairwise-distinct phase types, the re-run replacement
(`completedPhases[idx] = rerun` at `findIndex(p => p.phase_type === type)`)
keeps the types pairwise distinct, makes the fresh result the one found for
that type (last-write-wins), and leaves exactly one element of that type.
The persisted half is refuted separately: `runPhase` INSERTS a new
`planning_phases` row on every invocation. -/
theorem C9_in_memory_replace (phases : List PlanningPhase) (t : String) (p : PlanningPhase)
    (hp : p.phase_type = t)
    (hnd : (phases.map PlanningPhase.phase_type).Nodup) :
    ((replacePhase phases t p).map PlanningPhase.phase_type).Nodup ∧
    (replacePhase phases t p).find? (fun q => q.phase_type == t) = some p ∧
    ((replacePhase phases t p).filter (fun q => q.phase_type == t)).length = 1 :=
  replacePhase_spec t p hp phases hnd

/-- C9 witness: the in-memory replacement theorem applied to a concrete
two-phase array re-running `data`. -/
theorem C9_in_memory_replace_witness :
    (⟨3, ("data"), none, ("completed"), 3⟩ : PlanningPhase).phase_type = ("data") ∧
    ((([⟨1, ("data"), none, ("completed"), 1⟩,
        ⟨2, ("api"), none, ("completed"), 2⟩] : List PlanningPhase).map
        PlanningPhase.phase_type).Nodup) ∧
    (((replacePhase [⟨1, ("data"), none, ("completed"), 1⟩,
        ⟨2, ("api"), none, ("completed"), 2⟩] ("data")
        ⟨3, ("data"), none, ("completed"), 3⟩).map PlanningPhase.phase_type).Nodup ∧
     (replacePhase [⟨1, ("data"), none, ("completed"), 1⟩,
        ⟨2, ("api"), none, ("completed"), 2⟩] ("data")
        ⟨3, ("data"), none, ("completed"), 3⟩).find?
          (fun q => q.phase_type == ("data")) = some ⟨3, ("data"), none, ("completed"), 3⟩ ∧
     ((replacePhase [⟨1, ("data"), none, ("completed"), 1⟩,
        ⟨2, ("api"), none, ("completed"), 2⟩] ("data")
        ⟨3, ("data"), none, ("completed"), 3⟩).filter
          (fun q => q.phase_type == ("data"))).length = 1) :=
  ⟨rfl, by decide,
   C9_in_memory_replace [⟨1, ("data"), none, ("completed"), 1⟩, ⟨2, ("api"), none, ("completed"), 2⟩]
     ("data") ⟨3, ("data"), none, ("completed"), 3⟩ rfl (by decide)⟩

def dbValidateOk : Json → Bool × List String := fun _ => (true, [])

def dbRespOne : Nat → String := fun _ => ("1")

/-- C9 counterexample (persisted records): two `runPhase` invocations for
the same stage type `data` in one run leave TWO `planning_phases` rows of
that type, both `completed` — a re-run creates a second concurrent record
in the store, refuting the claim's no-second-record half. -/
theorem C9_db_second_record_counterexample :
    ((runPhaseDb dbValidateOk dbRespOne
        (runPhaseDb dbValidateOk dbRespOne [] ("data") 1).2 ("data") 2).2.map
      DbRow.phase_type) = [("data"), ("data")] ∧
    ((runPhaseDb dbValidateOk dbRespOne
        (runPhaseDb dbValidateOk dbRespOne [] ("data") 1).2 ("data") 2).2.map
      DbRow.status) = [("completed"), ("completed")] := by decide

end Planner
